import Mathlib

/-!
Verification development for the gh-to-org issue synchroniser.

The Python source (src/gh_org_sync) is shallowly embedded below:
the document model (models.py), the Org writer (org_writer.py), the Org
parser (org_parser.py) and the merge engine (merger.py) are translated
into executable Lean definitions, and the specification's claims are
settled as theorems about those definitions.

Conventions of the embedding:
* Python strings are Lean Strings; low-level scanning is done on the
  underlying character lists.
* Python dicts (insertion ordered, unique keys) are association lists;
  assignment updates an existing key in place or appends a new one.
* datetime values are naive timestamps (year .. second); fractional
  seconds and timezone offsets are outside the modelled subset and make
  datetime parsing fail, which is the only way the claims exercise them.
* Whitespace predicates model the ASCII subset of Python str.strip and
  the regex class backslash-s.
-/

set_option maxRecDepth 8192

namespace GhOrgSync

/-- Whitespace test modelling the Python regex class backslash-s and the
default character set of str.strip (ASCII subset). -/
def pyIsSpace (c : Char) : Bool :=
  c = ' ' || c = '\t' || c = '\n' || c = '\r' || c = '\x0b' || c = '\x0c'

/-- Left strip on character lists (Python str.lstrip). -/
def lstripL (l : List Char) : List Char := l.dropWhile pyIsSpace

/-- Right strip on character lists (Python str.rstrip). -/
def rstripL (l : List Char) : List Char := (l.reverse.dropWhile pyIsSpace).reverse

/-- Both-ends strip on character lists (Python str.strip). -/
def stripL (l : List Char) : List Char := rstripL (lstripL l)

/-- String form of str.lstrip. -/
def pyLstrip (s : String) : String := ⟨lstripL s.data⟩

/-- String form of str.rstrip. -/
def pyRstrip (s : String) : String := ⟨rstripL s.data⟩

/-- String form of str.strip. -/
def pyStrip (s : String) : String := ⟨stripL s.data⟩

/-- Python str.lower on the character list (ASCII subset of the
Unicode mapping actually applied by CPython). -/
def pyLower (s : String) : String := ⟨s.data.map Char.toLower⟩

/-- Python str.upper (ASCII subset). -/
def pyUpper (s : String) : String := ⟨s.data.map Char.toUpper⟩

/-- All-whitespace test on a character list. -/
def allWsL (l : List Char) : Bool := l.all pyIsSpace

theorem length_dropWhile_le {α : Type} (p : α → Bool) (l : List α) :
    (l.dropWhile p).length ≤ l.length := by
  induction l with
  | nil => simp
  | cons x xs ih =>
    rw [List.dropWhile_cons]
    split
    · exact Nat.le_succ_of_le ih
    · simp

/-- Split a character list at every occurrence of a character, keeping
empty pieces, exactly like Python str.split with a one-character
separator. -/
def chSplit (c : Char) : List Char → List (List Char)
  | [] => [[]]
  | x :: xs =>
    match chSplit c xs with
    | [] => [[x]]
    | g :: gs => if x = c then [] :: g :: gs else (x :: g) :: gs

/-- Join character lists with a single-character separator. -/
def chIntercalate (c : Char) : List (List Char) → List Char
  | [] => []
  | [g] => g
  | g :: gs => g ++ c :: chIntercalate c gs

/-- Lines of a string, modelling content.split applied with a newline
separator as in the Python parser. -/
def splitLines (s : String) : List String := (chSplit '\n' s.data).map (fun l => ⟨l⟩)

/-- Join strings with a separator, modelling the Python join method. -/
def joinWith (sep : String) : List String → String
  | [] => ""
  | [x] => x
  | x :: xs => x ++ sep ++ joinWith sep xs

/-- Strip a specific character from both ends of a character list
(Python str.strip with an argument). -/
def stripCharL (c : Char) (l : List Char) : List Char :=
  ((l.dropWhile (fun x => x = c)).reverse.dropWhile (fun x => x = c)).reverse

/-- Leftmost split of a character list around the first occurrence of a
pattern; none when the pattern does not occur. -/
def splitFirstL (pat : List Char) (l : List Char) : Option (List Char × List Char) :=
  if pat.isPrefixOf l then some ([], l.drop pat.length)
  else
    match l with
    | [] => none
    | x :: xs => (splitFirstL pat xs).map (fun p => (x :: p.1, p.2))

/-- Substring membership (the Python in operator on strings). -/
def containsSub (pat s : String) : Bool := (splitFirstL pat.data s.data).isSome

/-- Python str.split with maxsplit one: the pieces before and after the
first occurrence of a (nonempty) separator. -/
def pySplitOnce (sep s : String) : Option (String × String) :=
  (splitFirstL sep.data s.data).map (fun p => (⟨p.1⟩, ⟨p.2⟩))

/-- Replace every occurrence of a nonempty pattern, scanning left to
right as Python str.replace does.  The fuel argument (always the input
length at the entry point) only serves structural termination: each
step consumes at least one input character. -/
def replaceAllF (pat rep : List Char) : Nat → List Char → List Char
  | 0, l => l
  | _, [] => []
  | fuel + 1, x :: xs =>
    if pat ≠ [] ∧ pat.isPrefixOf (x :: xs) then
      rep ++ replaceAllF pat rep fuel ((x :: xs).drop pat.length)
    else
      x :: replaceAllF pat rep fuel xs

/-- Entry point of the replacement scan. -/
def replaceAllL (pat rep : List Char) (l : List Char) : List Char :=
  replaceAllF pat rep l.length l

/-- String form of str.replace. -/
def pyReplace (s pat rep : String) : String := ⟨replaceAllL pat.data rep.data s.data⟩

/-- Decimal digit character for a value below ten. -/
def digitChar (n : Nat) : Char :=
  match n with
  | 0 => '0' | 1 => '1' | 2 => '2' | 3 => '3' | 4 => '4'
  | 5 => '5' | 6 => '6' | 7 => '7' | 8 => '8' | _ => '9'

/-- Decimal digits of a natural number, least significant first; the
fuel argument (any bound strictly above the number) only serves
structural termination. -/
def natToDigitsRevF : Nat → Nat → List Char
  | 0, _ => []
  | fuel + 1, n =>
    if n < 10 then [digitChar n]
    else digitChar (n % 10) :: natToDigitsRevF fuel (n / 10)

/-- Decimal digits of a natural number, least significant first. -/
def natToDigitsRev (n : Nat) : List Char := natToDigitsRevF (n + 1) n

/-- Decimal rendering of a natural number, modelling the Python str
function on a nonnegative int. -/
def natToStr (n : Nat) : String := ⟨(natToDigitsRev n).reverse⟩

/-- Value of a decimal digit character. -/
def digitVal? (c : Char) : Option Nat :=
  if '0' ≤ c ∧ c ≤ '9' then some (c.toNat - 48) else none

/-- Parse a nonempty all-digit character list as a natural number. -/
def digitsToNat? (l : List Char) : Option Nat :=
  if l = [] then none
  else l.foldl (fun acc c => acc.bind (fun a => (digitVal? c).map (fun d => a * 10 + d))) (some 0)

/-- Python int applied to a string: surrounding whitespace is allowed,
then an optional sign and a nonempty digit run.  (Underscore digit
grouping, accepted by CPython, is outside the modelled subset.) -/
def pyInt (s : String) : Option Int :=
  match stripL s.data with
  | [] => none
  | c :: ds =>
    if c = '-' then (digitsToNat? ds).map (fun n => -(n : Int))
    else if c = '+' then (digitsToNat? ds).map (fun n => (n : Int))
    else (digitsToNat? (c :: ds)).map (fun n => (n : Int))

theorem digitChar_isDigitVal (n : Nat) (h : n < 10) : digitVal? (digitChar n) = some n := by
  interval_cases n <;> decide

theorem digitChar_isDigit (n : Nat) (h : n < 10) : (digitVal? (digitChar n)).isSome := by
  rw [digitChar_isDigitVal n h]; rfl

theorem natToDigitsRevF_eq (fuel n : Nat) (h : n < fuel) :
    natToDigitsRevF fuel n =
      if n < 10 then [digitChar n]
      else digitChar (n % 10) :: natToDigitsRevF (fuel - 1) (n / 10) := by
  cases fuel with
  | zero => omega
  | succ f => rfl

theorem natToDigitsRevF_irrel (fuel1 fuel2 n : Nat) (h1 : n < fuel1) (h2 : n < fuel2) :
    natToDigitsRevF fuel1 n = natToDigitsRevF fuel2 n := by
  induction fuel1 using Nat.strong_induction_on generalizing fuel2 n with
  | _ fuel1 ih =>
    rw [natToDigitsRevF_eq fuel1 n h1, natToDigitsRevF_eq fuel2 n h2]
    split
    · rfl
    · rename_i h10
      have hdiv : n / 10 < n := Nat.div_lt_self (by omega) (by omega)
      rw [ih (fuel1 - 1) (by omega) (fuel2 - 1) (n / 10) (by omega) (by omega)]

theorem natToDigitsRev_ne_nil (n : Nat) : natToDigitsRev n ≠ [] := by
  unfold natToDigitsRev
  rw [natToDigitsRevF_eq (n + 1) n (by omega)]
  split <;> simp

theorem natToDigitsRev_shape (n : Nat) :
    ∀ c ∈ natToDigitsRev n, ∃ k, k < 10 ∧ c = digitChar k := by
  unfold natToDigitsRev
  induction n using Nat.strong_induction_on with
  | _ n ih =>
    rw [natToDigitsRevF_eq (n + 1) n (by omega)]
    split
    · intro c hc
      simp at hc
      exact ⟨n, by omega, hc⟩
    · intro c hc
      rename_i h10
      have hdiv : n / 10 < n := Nat.div_lt_self (by omega) (by omega)
      rw [natToDigitsRevF_irrel (n + 1 - 1) (n / 10 + 1) (n / 10) (by omega) (by omega)] at hc
      simp at hc
      rcases hc with h | h
      · exact ⟨n % 10, Nat.mod_lt _ (by omega), h⟩
      · exact ih (n / 10) hdiv c h

theorem digitsToNat_rev_eq (n : Nat) :
    (natToDigitsRev n).reverse.foldl
      (fun acc c => acc.bind (fun a => (digitVal? c).map (fun d => a * 10 + d))) (some 0)
      = some n := by
  unfold natToDigitsRev
  induction n using Nat.strong_induction_on with
  | _ n ih =>
    rw [natToDigitsRevF_eq (n + 1) n (by omega)]
    split
    · simp [digitChar_isDigitVal n (by omega)]
    · rename_i h
      have hdiv : n / 10 < n := Nat.div_lt_self (by omega) (by omega)
      rw [natToDigitsRevF_irrel (n + 1 - 1) (n / 10 + 1) (n / 10) (by omega) (by omega)]
      rw [List.reverse_cons, List.foldl_append, ih (n / 10) hdiv]
      simp [digitChar_isDigitVal (n % 10) (Nat.mod_lt _ (by omega))]
      omega

theorem digitsToNat?_natToStr (n : Nat) : digitsToNat? (natToDigitsRev n).reverse = some n := by
  unfold digitsToNat?
  rw [if_neg (by simp [natToDigitsRev_ne_nil n])]
  exact digitsToNat_rev_eq n

theorem stripL_of_no_space (l : List Char) (h : ∀ c ∈ l, pyIsSpace c = false) :
    stripL l = l := by
  unfold stripL lstripL rstripL
  have h1 : l.dropWhile pyIsSpace = l := by
    cases l with
    | nil => rfl
    | cons x xs =>
      rw [List.dropWhile_cons, if_neg (by simp [h x (by simp)])]
  rw [h1]
  have h2 : l.reverse.dropWhile pyIsSpace = l.reverse := by
    cases hrev : l.reverse with
    | nil => rfl
    | cons x xs =>
      have hx : x ∈ l := by
        have : x ∈ l.reverse := by rw [hrev]; simp
        simpa using this
      rw [List.dropWhile_cons, if_neg (by simp [h x hx])]
  rw [h2, List.reverse_reverse]

/-- Round trip: parsing the decimal rendering of a natural number with
the Python int model recovers the number. -/
theorem pyInt_natToStr (n : Nat) : pyInt (natToStr n) = some (n : Int) := by
  unfold pyInt natToStr
  have hshape : ∀ c ∈ (natToDigitsRev n).reverse, ∃ k, k < 10 ∧ c = digitChar k := by
    intro c hc
    exact natToDigitsRev_shape n c (by simpa using hc)
  have hd : ∀ c ∈ (natToDigitsRev n).reverse, pyIsSpace c = false := by
    intro c hc
    obtain ⟨k, hk, rfl⟩ := hshape c hc
    interval_cases k <;> decide
  have hdata : (String.mk (natToDigitsRev n).reverse).data = (natToDigitsRev n).reverse := rfl
  rw [hdata, stripL_of_no_space _ hd]
  cases hrev : (natToDigitsRev n).reverse with
  | nil => exact absurd (by simpa using congrArg List.reverse hrev) (natToDigitsRev_ne_nil n)
  | cons x xs =>
    obtain ⟨k, hk, rfl⟩ := hshape x (by rw [hrev]; simp)
    have hm : digitChar k ≠ '-' := by interval_cases k <;> decide
    have hp : digitChar k ≠ '+' := by interval_cases k <;> decide
    have hfull : digitsToNat? (digitChar k :: xs) = some n := by
      rw [← hrev]; exact digitsToNat?_natToStr n
    simp [if_neg hm, if_neg hp, hfull]

/-! Naive datetime values, modelling Python datetime objects as used by
the sync core (no timezone, no microseconds beyond truncation). -/

/-- Naive timestamp with second precision.  The merge engine only ever
compares timestamps after truncating seconds, and the Org format stores
minute precision. -/
structure PyDateTime where
  year : Nat
  month : Nat
  day : Nat
  hour : Nat
  minute : Nat
  second : Nat
deriving DecidableEq, Repr

/-- Chronological comparison of naive datetimes (Python datetime
ordering: lexicographic on the component tuple). -/
def dtLt (a b : PyDateTime) : Bool :=
  if a.year ≠ b.year then a.year < b.year
  else if a.month ≠ b.month then a.month < b.month
  else if a.day ≠ b.day then a.day < b.day
  else if a.hour ≠ b.hour then a.hour < b.hour
  else if a.minute ≠ b.minute then a.minute < b.minute
  else a.second < b.second

/-- Model of datetime.replace with second and microsecond zeroed. -/
def truncToMinute (d : PyDateTime) : PyDateTime := { d with second := 0 }

/-- Sakamoto weekday computation; result zero is Sunday.  Models the
weekday used by strftime on the dates the core formats. -/
def dayOfWeekIdx (y m d : Nat) : Nat :=
  let t := [0, 3, 2, 5, 0, 3, 5, 1, 4, 6, 2, 4]
  let y' := if m < 3 then y - 1 else y
  (y' + y' / 4 - y' / 100 + y' / 400 + t.getD (m - 1) 0 + d) % 7

/-- Abbreviated C-locale weekday name as produced by strftime. -/
def dayName (idx : Nat) : String :=
  match idx % 7 with
  | 0 => "Sun" | 1 => "Mon" | 2 => "Tue" | 3 => "Wed"
  | 4 => "Thu" | 5 => "Fri" | _ => "Sat"

/-- Two-digit zero padding as in strftime. -/
def pad2 (n : Nat) : String := if n < 10 then "0" ++ natToStr n else natToStr n

/-- Four-digit zero padding for the year field of strftime. -/
def pad4 (n : Nat) : String :=
  if n < 10 then "000" ++ natToStr n
  else if n < 100 then "00" ++ natToStr n
  else if n < 1000 then "0" ++ natToStr n
  else natToStr n

/-- Parse a run of exactly n digit characters. -/
def takeDigits (n : Nat) (l : List Char) : Option (Nat × List Char) :=
  match n with
  | 0 => some (0, l)
  | n + 1 =>
    match l with
    | [] => none
    | c :: cs =>
      (digitVal? c).bind fun d =>
        (takeDigits n cs).map fun p => (d * 10 ^ n + p.1, p.2)

/-- Modelled subset of datetime.fromisoformat: a naive timestamp of the
shape YYYY-MM-DD, optionally followed by a single separator character
and HH:MM or HH:MM:SS.  Fractional seconds, timezone offsets and every
other shape (including Org-mode bracketed timestamps) yield none, which
matches the ValueError branch of the callers. -/
def parseIsoSubset (s : String) : Option PyDateTime :=
  match takeDigits 4 s.data with
  | none => none
  | some (y, r1) =>
    match r1 with
    | '-' :: r2 =>
      match takeDigits 2 r2 with
      | none => none
      | some (mo, r3) =>
        match r3 with
        | '-' :: r4 =>
          match takeDigits 2 r4 with
          | none => none
          | some (d, r5) =>
            let valid := 1 ≤ mo && mo ≤ 12 && 1 ≤ d && d ≤ 31
            match r5 with
            | [] => if valid then some ⟨y, mo, d, 0, 0, 0⟩ else none
            | _sep :: r6 =>
              match takeDigits 2 r6 with
              | none => none
              | some (hh, r7) =>
                match r7 with
                | ':' :: r8 =>
                  match takeDigits 2 r8 with
                  | none => none
                  | some (mi, r9) =>
                    let valid2 := valid && hh ≤ 23 && mi ≤ 59
                    match r9 with
                    | [] => if valid2 then some ⟨y, mo, d, hh, mi, 0⟩ else none
                    | ':' :: r10 =>
                      match takeDigits 2 r10 with
                      | none => none
                      | some (ss, r11) =>
                        match r11 with
                        | [] =>
                          if valid2 && ss ≤ 59 then some ⟨y, mo, d, hh, mi, ss⟩ else none
                        | _ => none
                    | _ => none
                | _ => none
        | _ => none
    | _ => none

/-! Data models (models.py). -/

/-- GitHub issue state (models.IssueState). -/
inductive IssueState where
  | openState
  | closedState
deriving DecidableEq, Repr

/-- String value of an issue state, as the Python str-enum value. -/
def IssueState.value : IssueState → String
  | .openState => "open"
  | .closedState => "closed"

/-- GitHub user (models.User); the url field is not read by the core. -/
structure User where
  login : String
deriving DecidableEq, Repr

/-- GitHub label (models.Label); only the name is read by the core. -/
structure Label where
  name : String
deriving DecidableEq, Repr

/-- GitHub milestone (models.Milestone); only the title is read. -/
structure Milestone where
  title : String
deriving DecidableEq, Repr

/-- Issue comment (models.Comment). -/
structure Comment where
  id : Nat
  author : User
  body : String
  created_at : PyDateTime
deriving DecidableEq, Repr

/-- GitHub issue snapshot (models.GitHubIssue).  Issue numbers are
nonnegative; the url is kept as its string rendering. -/
structure GitHubIssue where
  number : Nat
  title : String
  body : Option String := none
  state : IssueState
  created_at : PyDateTime
  updated_at : PyDateTime
  closed_at : Option PyDateTime := none
  author : User
  assignees : List User := []
  labels : List Label := []
  milestone : Option Milestone := none
  url : String
  comments : List Comment := []
deriving DecidableEq, Repr

/-- Label names of an issue (GitHubIssue.label_names). -/
def GitHubIssue.label_names (i : GitHubIssue) : List String := i.labels.map (·.name)

/-- Assignee logins of an issue (GitHubIssue.assignee_logins). -/
def GitHubIssue.assignee_logins (i : GitHubIssue) : List String := i.assignees.map (·.login)

/-- Org TODO keyword (models.OrgTodoState). -/
inductive OrgTodoState where
  | TODO
  | DONE
deriving DecidableEq, Repr

/-- String value of a TODO keyword. -/
def OrgTodoState.value : OrgTodoState → String
  | .TODO => "TODO"
  | .DONE => "DONE"

/-- Insertion-ordered string map with unique keys, modelling a Python
dict of strings.  Lookup returns the value at the first matching key. -/
def dictGet (d : List (String × String)) (k : String) : Option String :=
  (d.find? (fun p => p.1 = k)).map (·.2)

/-- Python dict lookup with a default value. -/
def dictGetD (d : List (String × String)) (k dflt : String) : String :=
  (dictGet d k).getD dflt

/-- Python dict assignment: replace the value of an existing key in
place, otherwise append the new pair. -/
def dictInsert (d : List (String × String)) (k v : String) : List (String × String) :=
  match d with
  | [] => [(k, v)]
  | (k', v') :: rest => if k' = k then (k, v) :: rest else (k', v') :: dictInsert rest k v

/-- Org heading node (models.OrgHeading).  The raw_text attribute is
assigned by the parser and read by the writer; merger.py line 187 notes
that it defaults to None, so it is modelled as an optional field even
though models.py omits its declaration. -/
structure OrgHeading where
  level : Nat
  title : String
  todo_state : Option OrgTodoState := none
  tags : List String := []
  properties : List (String × String) := []
  content : String := ""
  children : List OrgHeading := []
  source_line : Option Nat := none
  raw_text : Option String := none
deriving Repr

mutual

/-- Decidable equality for headings, recursing through children. -/
def OrgHeading.beq : OrgHeading → OrgHeading → Bool
  | ⟨l1, t1, td1, tg1, pr1, co1, ch1, sl1, rt1⟩, ⟨l2, t2, td2, tg2, pr2, co2, ch2, sl2, rt2⟩ =>
    l1 == l2 && t1 == t2 && td1 == td2 && tg1 == tg2 && pr1 == pr2 &&
    co1 == co2 && sl1 == sl2 && rt1 == rt2 && beqHeadingList ch1 ch2

/-- Pointwise heading-list equality used by OrgHeading.beq. -/
def beqHeadingList : List OrgHeading → List OrgHeading → Bool
  | [], [] => true
  | x :: xs, y :: ys => OrgHeading.beq x y && beqHeadingList xs ys
  | _, _ => false

end

mutual

theorem OrgHeading.beq_iff : ∀ a b : OrgHeading, OrgHeading.beq a b = true ↔ a = b
  | ⟨l1, t1, td1, tg1, pr1, co1, ch1, sl1, rt1⟩, ⟨l2, t2, td2, tg2, pr2, co2, ch2, sl2, rt2⟩ => by
    simp only [OrgHeading.beq, Bool.and_eq_true, beq_iff_eq, OrgHeading.mk.injEq]
    have := beqHeadingList_iff ch1 ch2
    tauto

theorem beqHeadingList_iff : ∀ l1 l2 : List OrgHeading, beqHeadingList l1 l2 = true ↔ l1 = l2
  | [], [] => by simp [beqHeadingList]
  | x :: xs, y :: ys => by
    simp only [beqHeadingList, Bool.and_eq_true, List.cons.injEq]
    have h1 := OrgHeading.beq_iff x y
    have h2 := beqHeadingList_iff xs ys
    tauto
  | [], _ :: _ => by simp [beqHeadingList]
  | _ :: _, [] => by simp [beqHeadingList]

end

instance : DecidableEq OrgHeading := fun a b =>
  decidable_of_iff (OrgHeading.beq a b = true) (OrgHeading.beq_iff a b)

instance : Inhabited OrgHeading := ⟨⟨1, "", none, [], [], "", [], none, none⟩⟩

/-- GitHub issue number parsed from the properties (OrgHeading.github_number):
the GITHUB_NUMBER value when present, nonempty and a valid integer. -/
def OrgHeading.github_number (h : OrgHeading) : Option Int :=
  match dictGet h.properties "GITHUB_NUMBER" with
  | some s => if s ≠ "" then pyInt s else none
  | none => none

/-- Last-known GitHub update timestamp (OrgHeading.github_updated):
the GITHUB_UPDATED value, with Z replaced by an offset, parsed as an
ISO timestamp; unparseable values yield none. -/
def OrgHeading.github_updated (h : OrgHeading) : Option PyDateTime :=
  match dictGet h.properties "GITHUB_UPDATED" with
  | some s => if s ≠ "" then parseIsoSubset (pyReplace s "Z" "+00:00") else none
  | none => none

/-- Merge action classification (models.MergeAction). -/
inductive MergeAction where
  | added
  | updated
  | unchanged
  | preserved
deriving DecidableEq, Repr

/-- Per-entry merge log record (models.MergeEntry). -/
structure MergeEntry where
  issue_number : Nat
  title : String
  action : MergeAction
  details : Option String := none
deriving DecidableEq, Repr

/-- Merge statistics (models.MergeResult). -/
structure MergeResult where
  entries : List MergeEntry := []
  total_github_issues : Nat := 0
  total_org_headings : Nat := 0
  added : Nat := 0
  updated : Nat := 0
  unchanged : Nat := 0
  preserved : Nat := 0
  errors : List String := []
deriving DecidableEq, Repr

/-- Append a merge entry and bump the matching counter
(MergeResult.add_entry). -/
def MergeResult.add_entry (r : MergeResult) (issue_number : Nat) (title : String)
    (action : MergeAction) (details : Option String) : MergeResult :=
  let r' := { r with entries := r.entries ++ [MergeEntry.mk issue_number title action details] }
  match action with
  | .added => { r' with added := r'.added + 1 }
  | .updated => { r' with updated := r'.updated + 1 }
  | .unchanged => { r' with unchanged := r'.unchanged + 1 }
  | .preserved => { r' with preserved := r'.preserved + 1 }

/-! Org writer (org_writer.py). -/

/-- Line-ending normalisation (org_writer.normalize_line_endings). -/
def normalize_line_endings (s : String) : String :=
  pyReplace (pyReplace s "\r\n" "\n") "\r" "\n"

/-- ASCII word character, modelling the regex class backslash-w. -/
def isWordChar (c : Char) : Bool :=
  ('a' ≤ c && c ≤ 'z') || ('A' ≤ c && c ≤ 'Z') || ('0' ≤ c && c ≤ '9') || c = '_'

/-- Generic left-to-right scan-and-replace, modelling one re.sub pass:
at each position the matcher either consumes a positive number of input
characters and emits a replacement, or the scanner copies one character
and moves on.  The matcher also sees the previous input character so
lookbehind assertions can be modelled. -/
def scanReplF (tryf : Option Char → List Char → Option (List Char × Nat)) :
    Nat → Option Char → List Char → List Char
  | 0, _, l => l
  | _, _, [] => []
  | fuel + 1, prev, x :: xs =>
    match tryf prev (x :: xs) with
    | some (rep, n) =>
      if n = 0 then x :: scanReplF tryf fuel (some x) xs
      else rep ++ scanReplF tryf fuel (some (((x :: xs).take n).getLastD x)) ((x :: xs).drop n)
    | none => x :: scanReplF tryf fuel (some x) xs

/-- Entry point of the scan: the fuel is the input length, enough for
every matcher that consumes at least one character per match. -/
def scanRepl (tryf : Option Char → List Char → Option (List Char × Nat))
    (prev : Option Char) (l : List Char) : List Char :=
  scanReplF tryf l.length prev l

/-- Matcher for fenced code blocks: three backticks, a word-character
language run, a newline, the shortest body up to the next three
backticks. -/
def tryCodeBlock (_ : Option Char) (l : List Char) : Option (List Char × Nat) :=
  if ['`', '`', '`'].isPrefixOf l then
    let after := l.drop 3
    let lang := after.takeWhile isWordChar
    match after.drop lang.length with
    | '\n' :: rest2 =>
      match splitFirstL ['`', '`', '`'] rest2 with
      | some (code, _) =>
        let n := 3 + lang.length + 1 + code.length + 3
        let rep :=
          if lang ≠ [] then
            "#+BEGIN_SRC ".data ++ lang ++ '\n' :: (code ++ "#+END_SRC".data)
          else
            "#+BEGIN_SRC".data ++ '\n' :: (code ++ "#+END_SRC".data)
        some (rep, n)
      | none => none
    | _ => none
  else none

/-- Matcher for Markdown links, with the negative lookbehind that
rejects a preceding opening bracket. -/
def tryLink (prev : Option Char) (l : List Char) : Option (List Char × Nat) :=
  if prev = some '[' then none
  else
    match l with
    | '[' :: rest =>
      let text := rest.takeWhile (fun c => c ≠ ']')
      if text = [] then none
      else
        match rest.drop text.length with
        | ']' :: '(' :: r3 =>
          let url := r3.takeWhile (fun c => c ≠ ')')
          if url = [] then none
          else
            match r3.drop url.length with
            | ')' :: _ =>
              some ("[[".data ++ url ++ "][".data ++ text ++ "]]".data,
                    1 + text.length + 2 + url.length + 1)
            | _ => none
        | _ => none
    | _ => none

/-- Matcher for inline code spans delimited by single backticks. -/
def tryInlineCode (_ : Option Char) (l : List Char) : Option (List Char × Nat) :=
  match l with
  | '`' :: rest =>
    let run := rest.takeWhile (fun c => c ≠ '`' && c ≠ '\n')
    if run = [] then none
    else
      match rest.drop run.length with
      | '`' :: _ => some ('=' :: (run ++ ['=']), run.length + 2)
      | _ => none
  | _ => none

/-- Matcher for double-asterisk bold spans. -/
def tryBoldStars (_ : Option Char) (l : List Char) : Option (List Char × Nat) :=
  if ['*', '*'].isPrefixOf l then
    let rest := l.drop 2
    let run := rest.takeWhile (fun c => c ≠ '*')
    if run = [] then none
    else if ['*', '*'].isPrefixOf (rest.drop run.length) then
      some ('*' :: (run ++ ['*']), run.length + 4)
    else none
  else none

/-- Matcher for double-underscore bold spans. -/
def tryBoldUnders (_ : Option Char) (l : List Char) : Option (List Char × Nat) :=
  if ['_', '_'].isPrefixOf l then
    let rest := l.drop 2
    let run := rest.takeWhile (fun c => c ≠ '_')
    if run = [] then none
    else if ['_', '_'].isPrefixOf (rest.drop run.length) then
      some ('*' :: (run ++ ['*']), run.length + 4)
    else none
  else none

/-- Trailing lookahead of the italic patterns: whitespace, end of text,
or sentence punctuation. -/
def italicLookahead (tail : List Char) : Bool :=
  match tail with
  | [] => true
  | c :: _ =>
    pyIsSpace c || c = '.' || c = ',' || c = ';' || c = ':' || c = '!' || c = '?'

/-- Matcher for single-asterisk italics with the whitespace lookbehind. -/
def tryItalicStar (prev : Option Char) (l : List Char) : Option (List Char × Nat) :=
  match prev with
  | some p =>
    if pyIsSpace p then
      match l with
      | '*' :: rest =>
        let run := rest.takeWhile (fun c => c ≠ '*' && c ≠ '\n')
        if run = [] then none
        else
          match rest.drop run.length with
          | '*' :: tail =>
            if italicLookahead tail then some ('/' :: (run ++ ['/']), run.length + 2)
            else none
          | _ => none
      | _ => none
    else none
  | none => none

/-- Matcher for single-underscore italics with the whitespace
lookbehind. -/
def tryItalicUnder (prev : Option Char) (l : List Char) : Option (List Char × Nat) :=
  match prev with
  | some p =>
    if pyIsSpace p then
      match l with
      | '_' :: rest =>
        let run := rest.takeWhile (fun c => c ≠ '_' && c ≠ '\n')
        if run = [] then none
        else
          match rest.drop run.length with
          | '_' :: tail =>
            if italicLookahead tail then some ('/' :: (run ++ ['/']), run.length + 2)
            else none
          | _ => none
      | _ => none
    else none
  | none => none

/-- Matcher for double-tilde strikethrough spans. -/
def tryStrike (_ : Option Char) (l : List Char) : Option (List Char × Nat) :=
  if ['~', '~'].isPrefixOf l then
    let rest := l.drop 2
    let run := rest.takeWhile (fun c => c ≠ '~')
    if run = [] then none
    else if ['~', '~'].isPrefixOf (rest.drop run.length) then
      some ('+' :: (run ++ ['+']), run.length + 4)
    else none
  else none

/-- Drop a number of leading characters from a string. -/
def strDropChars (s : String) (n : Nat) : String := ⟨s.data.drop n⟩

/-- Prefix test on strings via the underlying character lists. -/
def strStarts (s p : String) : Bool := p.data.isPrefixOf s.data

/-- Blockquote conversion pass of markdown_to_org: consecutive lines
starting with a quote mark become one quote block. -/
def bqGo : Bool → List String → List String
  | inbq, [] => if inbq then ["#+END_QUOTE"] else []
  | inbq, line :: rest =>
    if strStarts line "> " then
      (if inbq then [strDropChars line 2]
       else ["#+BEGIN_QUOTE", strDropChars line 2]) ++ bqGo true rest
    else if strStarts line ">" then
      (if inbq then [strDropChars line 1]
       else ["#+BEGIN_QUOTE", strDropChars line 1]) ++ bqGo true rest
    else
      (if inbq then ["#+END_QUOTE", line] else [line]) ++ bqGo false rest

/-- Markdown-to-Org conversion (org_writer.markdown_to_org), as the
composition of the re.sub passes in source order followed by the
blockquote pass. -/
def markdown_to_org (text : String) : String :=
  if text = "" then ""
  else
    let t := normalize_line_endings text
    let t := String.mk (scanRepl tryCodeBlock none t.data)
    let t := String.mk (scanRepl tryLink none t.data)
    let t := String.mk (scanRepl tryInlineCode none t.data)
    let t := String.mk (scanRepl tryBoldStars none t.data)
    let t := String.mk (scanRepl tryBoldUnders none t.data)
    let t := String.mk (scanRepl tryItalicStar none t.data)
    let t := String.mk (scanRepl tryItalicUnder none t.data)
    let t := String.mk (scanRepl tryStrike none t.data)
    joinWith "\n" (bqGo false (splitLines t))

/-- Prefix match of the bold-text pattern used by the escape logic: an
asterisk, a character that is neither asterisk nor whitespace, any
non-newline run, another such character, and a closing asterisk. -/
def boldScan : List Char → Bool
  | [] => false
  | [_] => false
  | c2 :: d :: rest =>
    if (!(c2 = '*') && !pyIsSpace c2) && d = '*' then true
    else if c2 = '\n' then false
    else boldScan (d :: rest)

/-- Whole bold-like test on a stripped line. -/
def boldLike (l : List Char) : Bool :=
  match l with
  | '*' :: c1 :: rest =>
    if c1 = '*' || pyIsSpace c1 then false else boldScan rest
  | _ => false

/-- First character of the property-keyword pattern. -/
def isKwFirst (c : Char) : Bool := ('a' ≤ c && c ≤ 'z') || ('A' ≤ c && c ≤ 'Z') || c = '_'

/-- Later characters of the property-keyword pattern. -/
def isKwRest (c : Char) : Bool := isKwFirst c || ('0' ≤ c && c ≤ '9')

/-- Keyword pattern of the escape logic: a letter or underscore
followed by letters, digits, underscores or dashes. -/
def isKeywordShaped (l : List Char) : Bool :=
  match l with
  | [] => false
  | c :: rest => isKwFirst c && rest.all isKwRest

/-- Escape decision and rewrite for one content line
(inner loop of org_writer.escape_org_content). -/
def escapeLine (line : String) : String :=
  let stripped := lstripL line.data
  match hs : stripped with
  | [] => line
  | c :: rest =>
    let indent := line.data.take (line.data.length - stripped.length)
    let needs_escape :=
      if c = '*' && !boldLike stripped then
        decide (rest = []) || (match rest with | ' ' :: _ => true | _ => false)
      else if c = '*' then
        false
      else if c = '#' && !(['#', '+'].isPrefixOf stripped) then
        true
      else if c = ':' && rest.contains ':' then
        let colon_pos := 1 + (rest.takeWhile (fun x => x ≠ ':')).length
        let potential_keyword := stripped.drop 1 |>.take (colon_pos - 1)
        isKeywordShaped potential_keyword
      else false
    if needs_escape then String.mk (indent ++ ", ".data ++ stripped) else line

/-- Content escaping (org_writer.escape_org_content): Markdown
conversion followed by line-start escaping. -/
def escape_org_content (text : String) : String :=
  if text = "" then ""
  else
    let t := markdown_to_org text
    joinWith "\n" ((splitLines t).map escapeLine)

/-- Org timestamp formatting (org_writer.format_timestamp). -/
def format_timestamp (dt : PyDateTime) (active : Bool := false) : String :=
  let b1 := if active then "<" else "["
  let b2 := if active then ">" else "]"
  b1 ++ pad4 dt.year ++ "-" ++ pad2 dt.month ++ "-" ++ pad2 dt.day ++ " " ++
    dayName (dayOfWeekIdx dt.year dt.month dt.day) ++ " " ++
    pad2 dt.hour ++ ":" ++ pad2 dt.minute ++ b2

/-- Code-point lexicographic strict order on character lists, the
comparison Python applies to strings. -/
def strLtb : List Char → List Char → Bool
  | [], [] => false
  | [], _ :: _ => true
  | _ :: _, [] => false
  | a :: as, b :: bs => if a = b then strLtb as bs else decide (a < b)

theorem strLtb_irrefl (a : List Char) : strLtb a a = false := by
  induction a with
  | nil => rfl
  | cons x xs ih => simp [strLtb, ih]

theorem strLtb_asymm (a b : List Char) (h : strLtb a b = true) : strLtb b a = false := by
  induction a generalizing b with
  | nil =>
    cases b with
    | nil => simpa [strLtb] using h
    | cons y ys => simp [strLtb]
  | cons x xs ih =>
    cases b with
    | nil => simp [strLtb] at h
    | cons y ys =>
      simp only [strLtb] at h ⊢
      by_cases hxy : x = y
      · subst hxy
        simp only [if_pos rfl] at h ⊢
        exact ih ys h
      · rw [if_neg hxy] at h
        rw [if_neg (fun hyx => hxy hyx.symm)]
        simp only [decide_eq_true_eq] at h
        simp only [decide_eq_false_iff_not]
        exact lt_asymm h

theorem strLtb_total_eq (a b : List Char) (h1 : strLtb a b = false)
    (h2 : strLtb b a = false) : a = b := by
  induction a generalizing b with
  | nil =>
    cases b with
    | nil => rfl
    | cons y ys => simp [strLtb] at h1
  | cons x xs ih =>
    cases b with
    | nil => simp [strLtb] at h2
    | cons y ys =>
      simp only [strLtb] at h1 h2
      by_cases hxy : x = y
      · subst hxy
        rw [if_pos rfl] at h1 h2
        rw [ih ys h1 h2]
      · rw [if_neg hxy] at h1
        rw [if_neg (fun hyx => hxy hyx.symm)] at h2
        simp only [decide_eq_false_iff_not] at h1 h2
        exact absurd (lt_or_gt_of_ne hxy) (by simp [h1, h2])

theorem strLtb_trans (a b c : List Char) (h1 : strLtb a b = true)
    (h2 : strLtb b c = true) : strLtb a c = true := by
  induction a generalizing b c with
  | nil =>
    cases c with
    | nil =>
      cases b with
      | nil => simpa [strLtb] using h1
      | cons y ys => simp [strLtb] at h2
    | cons z zs => simp [strLtb]
  | cons x xs ih =>
    cases b with
    | nil => simp [strLtb] at h1
    | cons y ys =>
      cases c with
      | nil => simp [strLtb] at h2
      | cons z zs =>
        simp only [strLtb] at h1 h2 ⊢
        by_cases hxy : x = y <;> by_cases hyz : y = z
        · subst hxy; subst hyz
          rw [if_pos rfl] at h1 h2 ⊢
          exact ih ys zs h1 h2
        · subst hxy
          rw [if_pos rfl] at h1
          rw [if_neg hyz] at h2 ⊢
          exact h2
        · subst hyz
          rw [if_pos rfl] at h2
          rw [if_neg hxy] at h1 ⊢
          exact h1
        · rw [if_neg hxy] at h1
          rw [if_neg hyz] at h2
          simp only [decide_eq_true_eq] at h1 h2
          have hxz : x < z := lt_trans h1 h2
          rw [if_neg (fun hzz => absurd hxz (by rw [hzz]; exact lt_irrefl z)),
            decide_eq_true_eq]
          exact hxz

/-- Value comparison for the Python sorted call on dict items
(unreachable for dict input, whose keys are unique). -/
def propValLeB : Option String → Option String → Bool
  | none, _ => true
  | some _, none => false
  | some x, some y => !(strLtb y.data x.data)

/-- Pair order for sorting property items: key first, then value. -/
def propPairLe (a b : String × Option String) : Prop :=
  (strLtb a.1.data b.1.data || (a.1 == b.1 && propValLeB a.2 b.2)) = true

instance : DecidableRel propPairLe := fun a b => by
  unfold propPairLe
  infer_instance

theorem propValLeB_total (a b : Option String) :
    propValLeB a b = true ∨ propValLeB b a = true := by
  cases a <;> cases b <;> simp [propValLeB]
  rename_i x y
  by_cases h : strLtb x.data y.data = true
  · exact Or.inl (strLtb_asymm _ _ h)
  · exact Or.inr (by simpa using h)

instance : IsTotal (String × Option String) propPairLe := by
  constructor
  intro a b
  unfold propPairLe
  by_cases hk : strLtb a.1.data b.1.data = true
  · exact Or.inl (by simp [hk])
  · by_cases hk2 : strLtb b.1.data a.1.data = true
    · exact Or.inr (by simp [hk2])
    · have heq : a.1.data = b.1.data :=
        strLtb_total_eq _ _ (by simpa using hk) (by simpa using hk2)
      have heqs : a.1 = b.1 := by
        cases a1 : a.1
        cases b1 : b.1
        simp only [a1, b1] at heq
        exact congrArg String.mk heq
      rcases propValLeB_total a.2 b.2 with hv | hv
      · exact Or.inl (by simp [heqs, hv])
      · exact Or.inr (by simp [heqs.symm, hv])

theorem strLtb_le_trans (x y z : List Char) (h1 : strLtb y x = false)
    (h2 : strLtb z y = false) : strLtb z x = false := by
  by_cases hzx : strLtb z x = true
  · by_cases hxy : strLtb x y = true
    · have := strLtb_trans z x y hzx hxy
      rw [this] at h2
      exact absurd h2 (by simp)
    · have heq : x = y := strLtb_total_eq x y (by simpa using hxy) h1
      subst heq
      rw [hzx] at h2
      exact absurd h2 (by simp)
  · simpa using hzx

theorem propValLeB_trans (a b c : Option String) (h1 : propValLeB a b = true)
    (h2 : propValLeB b c = true) : propValLeB a c = true := by
  cases a with
  | none => cases c <;> rfl
  | some x =>
    cases b with
    | none => exact absurd h1 (by simp [propValLeB])
    | some y =>
      cases c with
      | none => exact absurd h2 (by simp [propValLeB])
      | some z =>
        simp only [propValLeB, Bool.not_eq_true'] at h1 h2 ⊢
        exact strLtb_le_trans x.data y.data z.data h1 h2

instance : IsTrans (String × Option String) propPairLe := by
  constructor
  intro a b c hab hbc
  unfold propPairLe at hab hbc ⊢
  simp only [Bool.or_eq_true, Bool.and_eq_true, beq_iff_eq] at hab hbc ⊢
  rcases hab with h1 | ⟨h1, v1⟩ <;> rcases hbc with h2 | ⟨h2, v2⟩
  · exact Or.inl (strLtb_trans _ _ _ h1 h2)
  · exact Or.inl (h2 ▸ h1)
  · exact Or.inl (h1 ▸ h2)
  · exact Or.inr ⟨h1.trans h2, propValLeB_trans _ _ _ v1 v2⟩

theorem propValLeB_antisymm (a b : Option String) (h1 : propValLeB a b = true)
    (h2 : propValLeB b a = true) : a = b := by
  cases a with
  | none =>
    cases b with
    | none => rfl
    | some y => exact absurd h2 (by simp [propValLeB])
  | some x =>
    cases b with
    | none => exact absurd h1 (by simp [propValLeB])
    | some y =>
      simp only [propValLeB, Bool.not_eq_true'] at h1 h2
      have hd := strLtb_total_eq y.data x.data h1 h2
      have hxy : x = y := by
        cases x
        cases y
        exact congrArg String.mk hd.symm
      rw [hxy]

instance : IsAntisymm (String × Option String) propPairLe := by
  constructor
  intro a b hab hba
  unfold propPairLe at hab hba
  simp only [Bool.or_eq_true, Bool.and_eq_true, beq_iff_eq] at hab hba
  rcases hab with h1 | ⟨h1, v1⟩
  · rcases hba with h2 | ⟨h2, v2⟩
    · exact absurd h2 (by simp [strLtb_asymm _ _ h1])
    · exact absurd h1 (by simp [h2, strLtb_irrefl])
  · rcases hba with h2 | ⟨h2, v2⟩
    · exact absurd h2 (by simp [h1, strLtb_irrefl])
    · rcases a with ⟨k1, va⟩
      rcases b with ⟨k2, vb⟩
      simp only at h1
      subst h1
      rw [propValLeB_antisymm va vb v1 v2]

/-- Properties drawer rendering (org_writer.format_properties).  Values
are optional strings; the datetime and int value variants of the Python
signature are only exercised by format_issue_heading, which lies outside
the embedded core. -/
def format_properties (properties : List (String × Option String))
    (indent : String := "") (target_column : Nat := 11) : String :=
  if properties = [] then ""
  else
    let valid := properties.filter (fun p =>
      match p.2 with
      | none => false
      | some v => pyStrip v ≠ "")
    if valid = [] then ""
    else
      let sortedProps := valid.insertionSort propPairLe
      let propLines := sortedProps.map (fun p =>
        let value_str := p.2.getD ""
        let key_upper := pyUpper p.1
        let prefLen := key_upper.length + 2
        let padding :=
          if prefLen ≥ target_column then " "
          else String.mk (List.replicate (target_column - prefLen) ' ')
        indent ++ ":" ++ key_upper ++ ":" ++ padding ++ value_str)
      joinWith "\n" ((indent ++ ":PROPERTIES:") :: propLines ++ [indent ++ ":END:"])

mutual

/-- Heading rendering (OrgWriter.format_heading): verbatim raw text when
present, synthesis otherwise; children are always re-rendered, each
preceded by an empty separator line. -/
def format_heading : OrgHeading → String
  | ⟨level, title, todo_state, tags, properties, content, children, _, raw_text⟩ =>
    let lines :=
      match raw_text with
      | some raw => [raw]
      | none =>
        let stars := String.mk (List.replicate level '*')
        let parts := [stars] ++
          (match todo_state with | some t => [t.value] | none => []) ++
          [title] ++
          (if tags ≠ [] then [":" ++ joinWith ":" tags ++ ":"] else [])
        let headLine := joinWith " " parts
        let propPart :=
          if properties ≠ [] then
            let props_text := format_properties (properties.map (fun p => (p.1, some p.2))) "" 11
            if props_text ≠ "" then [props_text] else []
          else []
        let contentPart := if content ≠ "" then [content] else []
        [headLine] ++ propPart ++ contentPart
    joinWith "\n" (lines ++ formatChildren children)

/-- Child rendering of format_heading: a blank line then the child's
text, for each child in order. -/
def formatChildren : List OrgHeading → List String
  | [] => []
  | c :: cs => "" :: format_heading c :: formatChildren cs

end

/-- Document rendering of a heading forest as in OrgWriter.write_file
(without the optional header and final newline normalisation): the
renderings of the top-level headings joined by single newlines. -/
def renderForest (hs : List OrgHeading) : String := joinWith "\n" (hs.map format_heading)

/-! Org parser (org_parser.py). -/

/-- Characters allowed inside a tag cluster by the heading pattern. -/
def isTagClassChar (c : Char) : Bool :=
  isWordChar c || c = '@' || c = '#' || c = '%' || c = ':'

/-- Captures of the heading regex HEADING_PATTERN: marker count,
optional TODO keyword (group 2), raw title (group 3) and raw tag
cluster with its surrounding colons (group 4). -/
structure HeadingMatchResult where
  level : Nat
  todo : Option (List Char)
  title : List Char
  tags : Option (List Char)
deriving DecidableEq, Repr

/-- Tag-cluster match at a position: a colon, a maximal run of tag
characters that is at least two long and ends in a colon.  Backtracking
inside the greedy character class reduces to this single shape because
tag characters are never whitespace. -/
def tagClusterAt (s4 : List Char) : Option (List Char × List Char) :=
  match s4 with
  | ':' :: body =>
    let run := body.takeWhile isTagClassChar
    if run.length ≥ 2 && run.getLastD ' ' = ':' then
      some (':' :: run, body.drop run.length)
    else none
  | _ => none

/-- Match of the optional tail of the heading pattern after the title:
mandatory whitespace, a tag cluster, then only whitespace.  A shorter
whitespace split would put a whitespace character where the cluster's
colon is required, so only the maximal split can succeed. -/
def tryTagsOnRem (rem : List Char) : Option (List Char) :=
  let wsr := (rem.takeWhile pyIsSpace).length
  if wsr = 0 then none
  else
    match tagClusterAt (rem.drop wsr) with
    | some (cluster, after) => if allWsL after then some cluster else none
    | none => none

/-- Lazy title search of the heading pattern: the shortest nonempty
title whose remainder is either whitespace plus a tag cluster plus
trailing whitespace, or trailing whitespace alone; the cluster
alternative is preferred at each length. -/
def titleLoopF (s3 : List Char) : Nat → Nat → Option (List Char × Option (List Char))
  | _, 0 => none
  | tlen, fuel + 1 =>
    if s3.length < tlen then none
    else
      let t := s3.take tlen
      let rem := s3.drop tlen
      match tryTagsOnRem rem with
      | some cluster => some (t, some cluster)
      | none => if allWsL rem then some (t, none) else titleLoopF s3 (tlen + 1) fuel

/-- Entry point of the lazy title search, with enough fuel to reach the
full input length. -/
def titleLoop (s3 : List Char) (tlen : Nat) : Option (List Char × Option (List Char)) :=
  titleLoopF s3 tlen (s3.length + 1 - tlen)

/-- Backtracking over the greedy whitespace run that precedes the
title, from the maximal length down to one. -/
def wsLoopTitle (after : List Char) : Nat → Option (List Char × Option (List Char))
  | 0 => none
  | k + 1 =>
    match titleLoop (after.drop (k + 1)) 1 with
    | some r => some r
    | none => wsLoopTitle after k

/-- Attempt of the optional TODO-keyword group for one keyword. -/
def tryKw (kw : List Char) (s2 : List Char) : Option (List Char × Option (List Char)) :=
  if kw.isPrefixOf s2 then
    let after := s2.drop kw.length
    let wsr := (after.takeWhile pyIsSpace).length
    wsLoopTitle after wsr
  else none

/-- Match of the heading pattern after the stars and one whitespace
split: keyword alternatives first (TODO before DONE), then the plain
title. -/
def attemptAfterWs (s2 : List Char) : Option (Option (List Char) × List Char × Option (List Char)) :=
  match tryKw "TODO".data s2 with
  | some (t, tg) => some (some "TODO".data, t, tg)
  | none =>
    match tryKw "DONE".data s2 with
    | some (t, tg) => some (some "DONE".data, t, tg)
    | none =>
      match titleLoop s2 1 with
      | some (t, tg) => some (none, t, tg)
      | none => none

/-- Backtracking over the greedy whitespace run that follows the stars. -/
def starsWsLoop (r1 : List Char) : Nat → Option (Option (List Char) × List Char × Option (List Char))
  | 0 => none
  | k + 1 =>
    match attemptAfterWs (r1.drop (k + 1)) with
    | some r => some r
    | none => starsWsLoop r1 k

/-- Full heading-line matcher (org_parser.HEADING_PATTERN), reproducing
the backtracking order of the Python regex engine. -/
def headingMatch (line : String) : Option HeadingMatchResult :=
  let l := line.data
  let stars := l.takeWhile (fun c => c = '*')
  if stars = [] then none
  else
    let r1 := l.drop stars.length
    let wsr := (r1.takeWhile pyIsSpace).length
    match starsWsLoop r1 wsr with
    | some (todo, t, tg) => some ⟨stars.length, todo, t, tg⟩
    | none => none

/-- Case-insensitive drawer-start test (PROPERTY_DRAWER_START). -/
def isDrawerStart (line : String) : Bool :=
  pyLower (String.mk (stripL line.data)) = ":properties:"

/-- Case-insensitive drawer-end test (PROPERTY_DRAWER_END). -/
def isDrawerEnd (line : String) : Bool :=
  pyLower (String.mk (stripL line.data)) = ":end:"

/-- Property-line matcher (PROPERTY_LINE): optional indentation, a
colon-delimited name of word characters and dashes, and the remainder
stripped of surrounding whitespace as the value. -/
def propertyLineMatch (line : String) : Option (String × String) :=
  let t := lstripL line.data
  match t with
  | ':' :: rest =>
    let name := rest.takeWhile (fun c => isWordChar c || c = '-')
    if name = [] then none
    else
      match rest.drop name.length with
      | ':' :: tail => some (String.mk name, String.mk (stripL tail))
      | _ => none
  | _ => none

/-- Inner loop of OrgParser. parse properties drawer: scan until the
end-delimiter line (consumed) or the end of input, storing matching
property lines under upper-cased keys. -/
def drawerGo : List String → List (String × String) → (List (String × String) × Nat)
  | [], props => (props, 0)
  | line :: rest, props =>
    if isDrawerEnd line then (props, 1)
    else
      match propertyLineMatch line with
      | some (name, value) =>
        let r := drawerGo rest (dictInsert props (pyUpper name) value)
        (r.1, r.2 + 1)
      | none =>
        let r := drawerGo rest props
        (r.1, r.2 + 1)

/-- Heading-segment consumption after a successful heading match
(OrgParser. parse heading): the optional drawer immediately below the
heading line, then content lines up to the next heading line of any
level.  Returns the heading and the number of lines consumed from the
list that follows the heading line. -/
def parse_heading_core (m : HeadingMatchResult) (line : String) (rest : List String)
    (lineNo : Nat) : OrgHeading × Nat :=
  let state := m.todo.map (fun kw => if kw = "TODO".data then OrgTodoState.TODO else OrgTodoState.DONE)
  let tags :=
    match m.tags with
    | some cl => ((chSplit ':' (stripCharL ':' cl)).map (fun g => String.mk g)).filter (fun t => t ≠ "")
    | none => []
  let drawer :=
    match rest with
    | r1 :: others =>
      if isDrawerStart r1 then
        let r := drawerGo others []
        some (r.1, r.2 + 1)
      else none
    | [] => none
  let props := (drawer.map Prod.fst).getD []
  let propLines := (drawer.map Prod.snd).getD 0
  let afterDrawer := rest.drop propLines
  let contentLines := afterDrawer.takeWhile (fun l => (headingMatch l).isNone)
  let consumedAfter := propLines + contentLines.length
  let content := pyRstrip (joinWith "\n" contentLines)
  let raw := joinWith "\n" (line :: rest.take consumedAfter)
  (⟨m.level, pyStrip (String.mk m.title), state, tags, props, content, [], some lineNo, some raw⟩,
    consumedAfter)

/-- Flat heading scan of OrgParser.parse_string, total version: lines
before the first heading are preamble and are discarded; every heading
line opens a segment.  The pydantic level bound is not modelled here
(see parseFlatE for the raising embedding). -/
def parseFlatF : Nat → Nat → List String → List OrgHeading
  | 0, _, _ => []
  | _, _, [] => []
  | fuel + 1, idx, line :: rest =>
    match headingMatch line with
    | some m =>
      let pr := parse_heading_core m line rest (idx + 1)
      pr.1 :: parseFlatF fuel (idx + 1 + pr.2) (rest.drop pr.2)
    | none => parseFlatF fuel (idx + 1) rest

/-- Entry point of the flat scan, with the line count as fuel (each
segment consumes at least its heading line). -/
def parseFlat (idx : Nat) (ls : List String) : List OrgHeading :=
  parseFlatF ls.length idx ls

/-- Flat heading scan with the two raising behaviours of the source:
the defensive re-match failure inside the heading parser (unreachable)
and the pydantic validation of the level field, which models.py bounds
by ten. -/
def parseFlatEF : Nat → Nat → List String → Except String (List OrgHeading)
  | 0, _, _ => .ok []
  | _, _, [] => .ok []
  | fuel + 1, idx, line :: rest =>
    match headingMatch line with
    | some _ =>
      match headingMatch line with
      | none => .error "Expected heading"
      | some m =>
        if m.level ≤ 10 then
          let pr := parse_heading_core m line rest (idx + 1)
          match parseFlatEF fuel (idx + 1 + pr.2) (rest.drop pr.2) with
          | .ok hs => .ok (pr.1 :: hs)
          | .error e => .error e
        else .error "ValidationError: level"
    | none => parseFlatEF fuel (idx + 1) rest

/-- Entry point of the raising flat scan. -/
def parseFlatE (idx : Nat) (ls : List String) : Except String (List OrgHeading) :=
  parseFlatEF ls.length idx ls

/-- Close a pending tree node by attaching its accumulated children. -/
def closeNode (p : OrgHeading × List OrgHeading) : OrgHeading :=
  { p.1 with children := p.1.children ++ p.2 }

/-- Stack popping step of OrgParser. build tree: close every stack node
whose level is at least the incoming level, attaching each closed node
to the node below it, or to the result list when the stack empties. -/
def btPopF (lvl : Nat) : Nat → List (OrgHeading × List OrgHeading) → List OrgHeading →
    (List (OrgHeading × List OrgHeading) × List OrgHeading)
  | _, [], res => ([], res)
  | 0, stack, res => (stack, res)
  | fuel + 1, top :: stk, res =>
    if top.1.level ≥ lvl then
      let closed := closeNode top
      match stk with
      | [] => ([], res ++ [closed])
      | (p, pk) :: s2 => btPopF lvl fuel ((p, pk ++ [closed]) :: s2) res
    else (top :: stk, res)

/-- Entry point of the stack-popping step. -/
def btPop (lvl : Nat) (stack : List (OrgHeading × List OrgHeading)) (res : List OrgHeading) :
    (List (OrgHeading × List OrgHeading) × List OrgHeading) :=
  btPopF lvl stack.length stack res

/-- Final flush of the ancestor stack after all headings are placed. -/
def btFlushF : Nat → List (OrgHeading × List OrgHeading) → List OrgHeading → List OrgHeading
  | _, [], res => res
  | 0, _ :: _, res => res
  | fuel + 1, top :: stk, res =>
    let closed := closeNode top
    match stk with
    | [] => res ++ [closed]
    | (p, pk) :: s2 => btFlushF fuel ((p, pk ++ [closed]) :: s2) res

/-- Entry point of the final stack flush. -/
def btFlush (stack : List (OrgHeading × List OrgHeading)) (res : List OrgHeading) :
    List OrgHeading :=
  btFlushF stack.length stack res

/-- Tree construction from the flat in-order heading list (OrgParser.
build tree).  The Python version mutates children lists in place; this
persistent version accumulates each stack node's children beside it and
attaches them when the node is popped, which yields the same tree. -/
def build_tree (flat : List OrgHeading) : List OrgHeading :=
  let st := flat.foldl (fun st h =>
    let pr := btPop h.level st.1 st.2
    ((h, []) :: pr.1, pr.2)) ([], [])
  btFlush st.1 st.2

/-- Total model of OrgParser.parse_string. -/
def parse_string (content : String) : List OrgHeading :=
  build_tree (parseFlat 0 (splitLines content))

/-- Raising model of OrgParser.parse_string, exposing the error
behaviours that the claims about exceptions concern. -/
def parse_stringE (content : String) : Except String (List OrgHeading) :=
  (parseFlatE 0 (splitLines content)).map build_tree

/-! Merge engine (merger.py). -/

/-- Collapse runs of two or more spaces to one space (the heading-line
normalisation step of the merge comparison). -/
def collapseSpacesF : Nat → List Char → List Char
  | 0, l => l
  | _, [] => []
  | fuel + 1, ' ' :: ' ' :: rest =>
    ' ' :: collapseSpacesF fuel (rest.dropWhile (fun c => c = ' '))
  | fuel + 1, x :: xs => x :: collapseSpacesF fuel xs

/-- Entry point of the space-run collapse. -/
def collapseSpacesL (l : List Char) : List Char := collapseSpacesF l.length l

/-- Whitespace-insensitive comparison form of a rendering
(merger. normalize for comparison): line endings normalised, lines
right-stripped, space runs collapsed on heading lines, and surrounding
blank lines removed. -/
def normalize_for_comparison (text : String) : String :=
  let text := pyReplace (pyReplace text "\r\n" "\n") "\r" "\n"
  let normalized := (splitLines text).map (fun line =>
    let line := pyRstrip line
    if strStarts line "*" then String.mk (collapseSpacesL line.data) else line)
  pyStrip (joinWith "\n" normalized)

/-- Sync-boundary sentinel line (OrgMerger.SYNC_MARKER). -/
def SYNC_MARKER : String := "# --- End of GitHub synced content ---"

/-- Replace runs of colons or whitespace with one underscore (the
re.sub step of tag sanitisation). -/
def colonWsRunsF : Nat → List Char → List Char
  | 0, l => l
  | _, [] => []
  | fuel + 1, x :: xs =>
    if x = ':' || pyIsSpace x then
      '_' :: colonWsRunsF fuel (xs.dropWhile (fun c => c = ':' || pyIsSpace c))
    else x :: colonWsRunsF fuel xs

/-- Entry point of the colon-and-whitespace run replacement. -/
def colonWsRuns (l : List Char) : List Char := colonWsRunsF l.length l

/-- Tag sanitisation: strip, replace colon and whitespace runs by
underscores, trim underscores. -/
def cleanTag (label : String) : String :=
  ⟨stripCharL '_' (colonWsRuns (stripL label.data))⟩

/-- Tag merge (OrgMerger. merge tags): the LINK tag when enabled,
sanitised GitHub labels, then user tags that are neither LINK nor a
sanitised label, with duplicates suppressed. -/
def merge_tags (add_link_tag : Bool) (issue : GitHubIssue) (existing : OrgHeading) :
    List String :=
  let tags0 : List String := if add_link_tag then ["LINK"] else []
  let tags1 := issue.label_names.foldl (fun tags label =>
    let clean_tag := cleanTag label
    if clean_tag ≠ "" ∧ ¬ tags.contains clean_tag then tags ++ [clean_tag] else tags) tags0
  let github_label_tags := issue.label_names.map cleanTag
  existing.tags.foldl (fun tags tag =>
    if pyUpper tag ≠ "LINK" ∧ ¬ github_label_tags.contains tag ∧ ¬ tags.contains tag then
      tags ++ [tag]
    else tags) tags1

/-- Externally managed property keys other than the GITHUB underscore
family (merger. merge properties). -/
def github_managed : List String := ["URL", "CREATED", "AUTHOR", "ASSIGNEES", "MILESTONE", "CLOSED"]

/-- Property merge (OrgMerger. merge properties): user keys survive,
GitHub-managed keys are freshly computed. -/
def merge_properties (issue : GitHubIssue) (existing : OrgHeading) :
    List (String × String) :=
  let userProps := existing.properties.filter (fun p =>
    ¬ strStarts p.1 "GITHUB_" ∧ ¬ github_managed.contains p.1)
  let properties := userProps.foldl (fun d p => dictInsert d p.1 p.2) []
  let properties := dictInsert properties "GITHUB_NUMBER" (natToStr issue.number)
  let properties := dictInsert properties "URL" issue.url
  let properties := dictInsert properties "GITHUB_STATE" issue.state.value
  let properties := dictInsert properties "GITHUB_UPDATED" (format_timestamp issue.updated_at)
  let properties := dictInsert properties "CREATED" (format_timestamp issue.created_at)
  let properties := dictInsert properties "AUTHOR" issue.author.login
  let properties :=
    if issue.assignee_logins ≠ [] then
      dictInsert properties "ASSIGNEES" (joinWith ", " issue.assignee_logins)
    else properties
  let properties :=
    match issue.milestone with
    | some m => dictInsert properties "MILESTONE" m.title
    | none => properties
  match issue.closed_at with
  | some c => dictInsert properties "CLOSED" (format_timestamp c)
  | none => properties

/-- User-content extraction (OrgMerger. extract user content): the
stripped text after the first sync marker, empty when no marker. -/
def extract_user_content (content : String) : String :=
  match pySplitOnce SYNC_MARKER content with
  | none => ""
  | some p => pyStrip p.2

/-- Content merge (OrgMerger. merge content): escaped issue body, then
a blank separator and the preserved user content when present. -/
def merge_content (issue : GitHubIssue) (existing : OrgHeading) : String :=
  let parts : List String :=
    match issue.body with
    | some b => if b ≠ "" then [escape_org_content (pyStrip b)] else []
    | none => []
  let user_content := extract_user_content existing.content
  let parts := if user_content ≠ "" then parts ++ ["", user_content] else parts
  pyRstrip (joinWith "\n" parts)

/-- Chronological comment order used when building comment children. -/
def commentLe (a b : Comment) : Prop := dtLt b.created_at a.created_at = false

instance : DecidableRel commentLe := fun a b => by
  unfold commentLe
  infer_instance

/-- Child merge (OrgMerger. merge children): one synthesized child per
comment in chronological order, then the existing children that are not
comment nodes. -/
def merge_children (issue : GitHubIssue) (existing : OrgHeading) : List OrgHeading :=
  let commentKids := (issue.comments.insertionSort commentLe).map (fun comment =>
    OrgHeading.mk (existing.level + 1)
      ("Comment by @" ++ comment.author.login ++ " " ++ format_timestamp comment.created_at)
      none [] []
      (if comment.body ≠ "" then escape_org_content (pyStrip comment.body) else "")
      [] none none)
  commentKids ++ existing.children.filter (fun child => ¬ strStarts child.title "Comment by @")

/-- Update test (OrgMerger. needs update): update when no stored
timestamp parses, when GitHub is newer at minute precision, or when the
stored state string differs. -/
def needs_update (issue : GitHubIssue) (existing : OrgHeading) : Bool :=
  match existing.github_updated with
  | none => true
  | some existing_updated =>
    let github_minute := truncToMinute issue.updated_at
    let existing_minute := truncToMinute existing_updated
    if dtLt existing_minute github_minute then true
    else pyLower (dictGetD existing.properties "GITHUB_STATE" "") ≠ issue.state.value

/-- Change summary for the merge log (OrgMerger. describe changes). -/
def describe_changes (issue : GitHubIssue) (existing : OrgHeading) : String :=
  let changes : List String := if issue.title ≠ existing.title then ["title"] else []
  let existing_state := pyLower (dictGetD existing.properties "GITHUB_STATE" "")
  let changes := changes ++
    (if existing_state ≠ issue.state.value then
      ["state (" ++ existing_state ++ " -> " ++ issue.state.value ++ ")"]
     else [])
  let existing_comment_count := dictGetD existing.properties "COMMENTS" "0"
  let changes := changes ++
    (match pyInt existing_comment_count with
     | some n => if n < issue.comments.length then ["new comments"] else []
     | none => [])
  if changes ≠ [] then joinWith ", " changes else "content updated"

/-- The candidate heading synthesized from GitHub data during
reconciliation (the OrgHeading construction inside merge heading):
raw text cleared, source line kept. -/
def synthesized_heading (add_link_tag : Bool) (issue : GitHubIssue)
    (existing : OrgHeading) : OrgHeading :=
  ⟨existing.level, issue.title,
    some (if issue.state.value = "closed" then .DONE else .TODO),
    merge_tags add_link_tag issue existing,
    merge_properties issue existing,
    merge_content issue existing,
    merge_children issue existing,
    existing.source_line, none⟩

/-- Reconciliation of one issue and one existing heading
(OrgMerger. merge heading): skip when no update is needed, otherwise
synthesize and fall back to unchanged when the normalised renderings
agree. -/
def merge_heading (add_link_tag : Bool) (issue : GitHubIssue) (existing : OrgHeading) :
    OrgHeading × MergeAction :=
  if ¬ needs_update issue existing then (existing, .unchanged)
  else
    let merged := synthesized_heading add_link_tag issue existing
    let existing_text := normalize_for_comparison (format_heading existing)
    let merged_text := normalize_for_comparison (format_heading merged)
    if existing_text = merged_text then (existing, .unchanged)
    else (merged, .updated)

/-- Fresh heading for an issue absent from the document
(OrgMerger. issue to heading). -/
def issue_to_heading (add_link_tag : Bool) (issue : GitHubIssue) (level : Nat := 1) :
    OrgHeading :=
  let tags0 : List String := if add_link_tag then ["LINK"] else []
  let tags := issue.label_names.foldl (fun tags label =>
    let clean_tag := cleanTag label
    if clean_tag ≠ "" then tags ++ [clean_tag] else tags) tags0
  let properties := dictInsert [] "GITHUB_NUMBER" (natToStr issue.number)
  let properties := dictInsert properties "URL" issue.url
  let properties := dictInsert properties "GITHUB_STATE" issue.state.value
  let properties := dictInsert properties "GITHUB_UPDATED" (format_timestamp issue.updated_at)
  let properties := dictInsert properties "CREATED" (format_timestamp issue.created_at)
  let properties := dictInsert properties "AUTHOR" issue.author.login
  let properties :=
    if issue.assignee_logins ≠ [] then
      dictInsert properties "ASSIGNEES" (joinWith ", " issue.assignee_logins)
    else properties
  let properties :=
    match issue.milestone with
    | some m => dictInsert properties "MILESTONE" m.title
    | none => properties
  let properties :=
    match issue.closed_at with
    | some c => dictInsert properties "CLOSED" (format_timestamp c)
    | none => properties
  let content :=
    match issue.body with
    | some b => if b ≠ "" then escape_org_content (pyStrip b) else ""
    | none => ""
  let children := (issue.comments.insertionSort commentLe).map (fun comment =>
    OrgHeading.mk (level + 1)
      ("Comment by @" ++ comment.author.login ++ " " ++ format_timestamp comment.created_at)
      none [] []
      (if comment.body ≠ "" then escape_org_content (pyStrip comment.body) else "")
      [] none none)
  ⟨level, issue.title,
    some (if issue.state.value = "closed" then .DONE else .TODO),
    tags, properties, content, children, none, none⟩

/-- Association-list lookup with general keys (for the issue index). -/
def alistGet (d : List (Int × GitHubIssue)) (k : Int) : Option GitHubIssue :=
  (d.find? (fun p => p.1 = k)).map (·.2)

/-- Association-list assignment with general keys. -/
def alistInsert (d : List (Int × GitHubIssue)) (k : Int) (v : GitHubIssue) :
    List (Int × GitHubIssue) :=
  match d with
  | [] => [(k, v)]
  | (k', v') :: rest => if k' = k then (k, v) :: rest else (k', v') :: alistInsert rest k v

/-- Issue index of OrgMerger.merge: a dict from issue number to issue,
built by successive assignment (later duplicates overwrite). -/
def buildIssueIndex (github_issues : List GitHubIssue) : List (Int × GitHubIssue) :=
  github_issues.foldl (fun d i => alistInsert d (i.number : Int) i) []

/-- Accumulator of the walk over existing headings in OrgMerger.merge. -/
structure WalkAcc where
  merged : List OrgHeading
  entries : List MergeEntry
  preservedCnt : Nat
  processed : List Int

/-- Walk over the existing headings in document order (the main loop of
OrgMerger.merge): keyless headings and headings whose key misses the
index are preserved; matched headings are reconciled and their issue
number recorded as processed. -/
def mergeGo (add_link_tag : Bool) (idx : List (Int × GitHubIssue)) :
    List OrgHeading → WalkAcc
  | [] => ⟨[], [], 0, []⟩
  | h :: t =>
    let r := mergeGo add_link_tag idx t
    match h.github_number with
    | none => ⟨h :: r.merged, r.entries, r.preservedCnt + 1, r.processed⟩
    | some n =>
      match alistGet idx n with
      | some issue =>
        let mh := merge_heading add_link_tag issue h
        let entry : MergeEntry :=
          ⟨issue.number, issue.title, mh.2,
            if mh.2 = .updated then some (describe_changes issue h) else none⟩
        ⟨mh.1 :: r.merged, entry :: r.entries, r.preservedCnt, n :: r.processed⟩
      | none => ⟨h :: r.merged, r.entries, r.preservedCnt + 1, r.processed⟩

/-- Per-heading output of the walk, used to state structural lemmas
about the merge output. -/
def walkStep (add_link_tag : Bool) (idx : List (Int × GitHubIssue)) (h : OrgHeading) :
    OrgHeading :=
  match h.github_number with
  | none => h
  | some n =>
    match alistGet idx n with
    | some issue => (merge_heading add_link_tag issue h).1
    | none => h

/-- Merge engine entry point (OrgMerger.merge): walk the previous
forest in order, then append the remaining issues as fresh headings in
ascending issue-number order, accumulating the change report. -/
def merge (add_link_tag : Bool) (github_issues : List GitHubIssue)
    (existing_headings : List OrgHeading) : List OrgHeading × MergeResult :=
  let issue_index := buildIssueIndex github_issues
  let w := mergeGo add_link_tag issue_index existing_headings
  let new_issues := github_issues.filter (fun i => ¬ w.processed.contains ((i.number : Int)))
  let sortedNew := new_issues.insertionSort (fun a b => a.number ≤ b.number)
  let newHeadings := sortedNew.map (fun i => issue_to_heading add_link_tag i 1)
  let base : MergeResult :=
    { total_github_issues := github_issues.length,
      total_org_headings := existing_headings.length,
      preserved := w.preservedCnt }
  let res1 := w.entries.foldl (fun r e => r.add_entry e.issue_number e.title e.action e.details) base
  let res2 := sortedNew.foldl (fun r i => r.add_entry i.number i.title .added none) res1
  (w.merged ++ newHeadings, res2)

/-! Supporting lemmas about dictionaries, the issue index and the merge
walk. -/

theorem dictGet_insert_self (d : List (String × String)) (k v : String) :
    dictGet (dictInsert d k v) k = some v := by
  induction d with
  | nil => simp [dictInsert, dictGet, List.find?]
  | cons p rest ih =>
    rcases p with ⟨k', v'⟩
    unfold dictInsert
    by_cases h : k' = k
    · simp [h, dictGet, List.find?]
    · rw [if_neg h]
      unfold dictGet at ih ⊢
      simp only [List.find?]
      have : (decide (k' = k)) = false := by simp [h]
      rw [this]
      exact ih

theorem dictGet_insert_other (d : List (String × String)) (k k' v : String)
    (h : k' ≠ k) : dictGet (dictInsert d k' v) k = dictGet d k := by
  induction d with
  | nil => simp [dictInsert, dictGet, List.find?, h]
  | cons p rest ih =>
    rcases p with ⟨k2, v2⟩
    unfold dictInsert
    by_cases h2 : k2 = k'
    · subst h2
      simp only [if_pos rfl]
      unfold dictGet
      simp only [List.find?]
      have hne : (decide (k2 = k)) = false := by simp [h]
      rw [hne]
    · rw [if_neg h2]
      unfold dictGet at ih ⊢
      simp only [List.find?]
      by_cases h3 : k2 = k
      · simp [h3]
      · have : (decide (k2 = k)) = false := by simp [h3]
        rw [this]
        exact ih

theorem alistGet_insert_self (d : List (Int × GitHubIssue)) (k : Int) (v : GitHubIssue) :
    alistGet (alistInsert d k v) k = some v := by
  induction d with
  | nil => simp [alistInsert, alistGet, List.find?]
  | cons p rest ih =>
    rcases p with ⟨k2, v2⟩
    unfold alistInsert
    by_cases h : k2 = k
    · simp [h, alistGet, List.find?]
    · rw [if_neg h]
      unfold alistGet at ih ⊢
      simp only [List.find?]
      have : (decide (k2 = k)) = false := by simp [h]
      rw [this]
      exact ih

theorem alistGet_insert_other (d : List (Int × GitHubIssue)) (k k' : Int) (v : GitHubIssue)
    (h : k' ≠ k) : alistGet (alistInsert d k' v) k = alistGet d k := by
  induction d with
  | nil => simp [alistInsert, alistGet, List.find?, h]
  | cons p rest ih =>
    rcases p with ⟨k2, v2⟩
    unfold alistInsert
    by_cases h2 : k2 = k'
    · subst h2
      simp only [if_pos rfl]
      unfold alistGet
      simp only [List.find?]
      have hne : (decide (k2 = k)) = false := by simp [h]
      rw [hne]
    · rw [if_neg h2]
      unfold alistGet at ih ⊢
      simp only [List.find?]
      by_cases h3 : k2 = k
      · simp [h3]
      · have : (decide (k2 = k)) = false := by simp [h3]
        rw [this]
        exact ih

theorem alistGet_insert (d : List (Int × GitHubIssue)) (k m : Int) (v : GitHubIssue) :
    alistGet (alistInsert d k v) m = if m = k then some v else alistGet d m := by
  by_cases h : m = k
  · subst h
    rw [if_pos rfl]
    exact alistGet_insert_self d m v
  · rw [if_neg h]
    exact alistGet_insert_other d m k v (fun he => h he.symm)

/-- Membership in an updated association list comes from the new
binding or the old list. -/
theorem alistInsert_mem (d : List (Int × GitHubIssue)) (k : Int) (v : GitHubIssue) :
    ∀ p ∈ alistInsert d k v, p = (k, v) ∨ p ∈ d := by
  induction d with
  | nil =>
    intro p hp
    simp [alistInsert] at hp
    exact Or.inl hp
  | cons x xs ih =>
    intro p hp
    unfold alistInsert at hp
    rcases x with ⟨k2, v2⟩
    by_cases h : k2 = k
    · rw [if_pos h] at hp
      rcases List.mem_cons.mp hp with h2 | h2
      · exact Or.inl h2
      · exact Or.inr (List.mem_cons_of_mem _ h2)
    · rw [if_neg h] at hp
      rcases List.mem_cons.mp hp with h2 | h2
      · exact Or.inr (by simp [h2])
      · rcases ih p h2 with h3 | h3
        · exact Or.inl h3
        · exact Or.inr (List.mem_cons_of_mem _ h3)

theorem buildIssueIndex_fold_mem (l : List GitHubIssue) :
    ∀ (acc : List (Int × GitHubIssue)) (p : Int × GitHubIssue),
      p ∈ l.foldl (fun d i => alistInsert d (i.number : Int) i) acc →
      p ∈ acc ∨ ∃ i ∈ l, p = ((i.number : Int), i) := by
  induction l with
  | nil =>
    intro acc p hp
    exact Or.inl hp
  | cons i rest ih =>
    intro acc p hp
    simp only [List.foldl_cons] at hp
    rcases ih (alistInsert acc (i.number : Int) i) p hp with h | ⟨j, hj, he⟩
    · rcases alistInsert_mem acc (i.number : Int) i p h with h2 | h2
      · exact Or.inr ⟨i, by simp, h2⟩
      · exact Or.inl h2
    · exact Or.inr ⟨j, List.mem_cons_of_mem _ hj, he⟩

/-- Every binding of the issue index maps an issue number to an issue
carrying that number, and that issue comes from the input list. -/
theorem buildIssueIndex_wf (issues : List GitHubIssue) :
    ∀ p ∈ buildIssueIndex issues, ((p.2.number : Int) = p.1 ∧ p.2 ∈ issues) := by
  intro p hp
  rcases buildIssueIndex_fold_mem issues [] p hp with h | ⟨i, hi, he⟩
  · simp at h
  · subst he
    exact ⟨rfl, hi⟩

/-- A successful index lookup returns an issue from the input list
whose number is the looked-up key. -/
theorem buildIssueIndex_get (issues : List GitHubIssue) (n : Int) (i : GitHubIssue)
    (h : alistGet (buildIssueIndex issues) n = some i) :
    (i.number : Int) = n ∧ i ∈ issues := by
  unfold alistGet at h
  rcases hf : (buildIssueIndex issues).find? (fun p => p.1 = n) with _ | p
  · rw [hf] at h
    simp at h
  · rw [hf] at h
    simp at h
    have hmem := List.mem_of_find?_eq_some hf
    have hkey := List.find?_some hf
    simp at hkey
    have := buildIssueIndex_wf issues p hmem
    subst h
    exact ⟨hkey ▸ this.1, this.2⟩

/-- An issue of the input list is always found in the index under its
own number. -/
theorem buildIssueIndex_isSome (issues : List GitHubIssue) (i : GitHubIssue)
    (hi : i ∈ issues) : (alistGet (buildIssueIndex issues) (i.number : Int)).isSome := by
  unfold buildIssueIndex
  suffices h : ∀ (l : List GitHubIssue) (acc : List (Int × GitHubIssue)) (n : Int),
      ((alistGet acc n).isSome ∨ ∃ j ∈ l, (j.number : Int) = n) →
      (alistGet (l.foldl (fun d i => alistInsert d (i.number : Int) i) acc) n).isSome by
    exact h issues [] (i.number : Int) (Or.inr ⟨i, hi, rfl⟩)
  intro l
  induction l with
  | nil =>
    intro acc n h
    rcases h with h | ⟨j, hj, _⟩
    · exact h
    · simp at hj
  | cons j rest ih =>
    intro acc n h
    simp only [List.foldl_cons]
    apply ih
    rw [alistGet_insert]
    by_cases hn : n = (j.number : Int)
    · rw [if_pos hn]
      exact Or.inl rfl
    · rw [if_neg hn]
      rcases h with h | ⟨j2, hj2, he⟩
      · exact Or.inl h
      · rcases List.mem_cons.mp hj2 with h2 | h2
        · exact absurd (h2 ▸ he).symm hn
        · exact Or.inr ⟨j2, h2, he⟩

/-- The output list of the merge walk is the pointwise walk step. -/
theorem mergeGo_merged (flag : Bool) (idx : List (Int × GitHubIssue))
    (hs : List OrgHeading) :
    (mergeGo flag idx hs).merged = hs.map (walkStep flag idx) := by
  induction hs with
  | nil => rfl
  | cons h t ih =>
    unfold mergeGo walkStep
    cases hg : h.github_number with
    | none => simpa [hg] using ih
    | some n =>
      cases hget : alistGet idx n with
      | none => simpa [hg, hget] using ih
      | some issue => simpa [hg, hget] using ih

/-- Numbers recorded as processed by the walk are exactly the keys of
matched headings. -/
theorem mergeGo_processed (flag : Bool) (idx : List (Int × GitHubIssue))
    (hs : List OrgHeading) (n : Int) :
    n ∈ (mergeGo flag idx hs).processed ↔
      ∃ h ∈ hs, h.github_number = some n ∧ (alistGet idx n).isSome := by
  induction hs with
  | nil => simp [mergeGo]
  | cons h t ih =>
    unfold mergeGo
    cases hg : h.github_number with
    | none =>
      simp only
      rw [ih]
      constructor
      · rintro ⟨h2, hh2, he⟩
        exact ⟨h2, List.mem_cons_of_mem _ hh2, he⟩
      · rintro ⟨h2, hh2, he⟩
        rcases List.mem_cons.mp hh2 with h3 | h3
        · rw [h3] at he
          rw [hg] at he
          exact absurd he.1 (by simp)
        · exact ⟨h2, h3, he⟩
    | some m =>
      cases hget : alistGet idx m with
      | none =>
        simp only [hget]
        rw [ih]
        constructor
        · rintro ⟨h2, hh2, he⟩
          exact ⟨h2, List.mem_cons_of_mem _ hh2, he⟩
        · rintro ⟨h2, hh2, he⟩
          rcases List.mem_cons.mp hh2 with h3 | h3
          · rw [h3, hg] at he
            have hmn : m = n := by simpa using he.1
            rw [← hmn] at he
            rw [hget] at he
            exact absurd he.2 (by simp)
          · exact ⟨h2, h3, he⟩
      | some issue =>
        simp only [hget, List.mem_cons]
        rw [ih]
        constructor
        · rintro (he | ⟨h2, hh2, he⟩)
          · refine ⟨h, Or.inl rfl, by rw [hg, he], ?_⟩
            rw [he, hget]
            rfl
          · exact ⟨h2, Or.inr hh2, he⟩
        · rintro ⟨h2, hh2 | hh2, he⟩
          · rw [hh2, hg] at he
            exact Or.inl (by simpa using he.1.symm)
          · exact Or.inr ⟨h2, hh2, he⟩

/-- The preserved counter of the walk counts keyless and unmatched
headings. -/
theorem mergeGo_preservedCnt (flag : Bool) (idx : List (Int × GitHubIssue))
    (hs : List OrgHeading) :
    (mergeGo flag idx hs).preservedCnt =
      hs.countP (fun h =>
        match h.github_number with
        | none => true
        | some n => (alistGet idx n).isNone) := by
  induction hs with
  | nil => rfl
  | cons h t ih =>
    unfold mergeGo
    rw [List.countP_cons]
    cases hg : h.github_number with
    | none => simp [hg, ih]
    | some n =>
      cases hget : alistGet idx n with
      | none => simp [hg, hget, ih]
      | some issue => simp [hg, hget, ih]

/-- The reconciliation of a matched pair classifies it unchanged or
updated, never preserved or added. -/
theorem merge_heading_action (flag : Bool) (issue : GitHubIssue) (h : OrgHeading) :
    (merge_heading flag issue h).2 = .unchanged ∨ (merge_heading flag issue h).2 = .updated := by
  unfold merge_heading
  by_cases h1 : ¬ needs_update issue h
  · rw [if_pos h1]
    exact Or.inl rfl
  · rw [if_neg h1]
    dsimp only
    split
    · exact Or.inl rfl
    · exact Or.inr rfl

/-- Every entry the walk logs carries the unchanged or updated action. -/
theorem mergeGo_entries_action (flag : Bool) (idx : List (Int × GitHubIssue))
    (hs : List OrgHeading) :
    ∀ e ∈ (mergeGo flag idx hs).entries,
      e.action = .unchanged ∨ e.action = .updated := by
  induction hs with
  | nil => simp [mergeGo]
  | cons h t ih =>
    unfold mergeGo
    cases hg : h.github_number with
    | none => simpa using ih
    | some n =>
      cases hget : alistGet idx n with
      | none => simpa [hget] using ih
      | some issue =>
        simp only [hget]
        intro e he
        simp only [List.mem_cons] at he
        rcases he with he | he
        · rw [he]
          exact merge_heading_action flag issue h
        · exact ih e he

/-- The merged property set stores the issue number under the match
key. -/
theorem merge_properties_github_number (issue : GitHubIssue) (ex : OrgHeading) :
    dictGet (merge_properties issue ex) "GITHUB_NUMBER" = some (natToStr issue.number) := by
  unfold merge_properties
  dsimp only
  repeat' split
  all_goals
    (repeat rw [dictGet_insert_other _ _ _ _ (by decide)])
  all_goals rw [dictGet_insert_self]

/-- A fresh heading for an issue stores the issue number under the
match key. -/
theorem issue_to_heading_props_github_number (issue : GitHubIssue) :
    ∀ lvl flag, dictGet (issue_to_heading flag issue lvl).properties "GITHUB_NUMBER"
      = some (natToStr issue.number) := by
  intro lvl flag
  unfold issue_to_heading
  dsimp only
  repeat' split
  all_goals
    (repeat rw [dictGet_insert_other _ _ _ _ (by decide)])
  all_goals rw [dictGet_insert_self]

theorem natToStr_ne_empty (n : Nat) : natToStr n ≠ "" := by
  unfold natToStr
  intro h
  exact natToDigitsRev_ne_nil n (by simpa using congrArg (fun s => s.data.reverse) h)

/-- The synthesized heading carries the issue's number as its match
key. -/
theorem synthesized_heading_gn (flag : Bool) (issue : GitHubIssue) (ex : OrgHeading) :
    (synthesized_heading flag issue ex).github_number = some (issue.number : Int) := by
  unfold OrgHeading.github_number
  have hp : (synthesized_heading flag issue ex).properties = merge_properties issue ex := rfl
  rw [hp, merge_properties_github_number]
  simp [natToStr_ne_empty, pyInt_natToStr]

/-- A fresh heading carries the issue's number as its match key. -/
theorem issue_to_heading_gn (flag : Bool) (issue : GitHubIssue) (lvl : Nat) :
    (issue_to_heading flag issue lvl).github_number = some (issue.number : Int) := by
  unfold OrgHeading.github_number
  rw [issue_to_heading_props_github_number]
  simp [natToStr_ne_empty, pyInt_natToStr]

/-- Reconciliation preserves the match key of a matched heading. -/
theorem merge_heading_gn (flag : Bool) (issue : GitHubIssue) (h : OrgHeading)
    (hn : h.github_number = some (issue.number : Int)) :
    (merge_heading flag issue h).1.github_number = h.github_number := by
  unfold merge_heading
  by_cases h1 : ¬ needs_update issue h
  · rw [if_pos h1]
  · rw [if_neg h1]
    dsimp only
    split
    · rfl
    · rw [synthesized_heading_gn, hn]

/-- The walk step never changes a heading's match key. -/
theorem walkStep_gn (flag : Bool) (issues : List GitHubIssue) (h : OrgHeading) :
    (walkStep flag (buildIssueIndex issues) h).github_number = h.github_number := by
  unfold walkStep
  cases hg : h.github_number with
  | none => exact hg
  | some n =>
    cases hget : alistGet (buildIssueIndex issues) n with
    | none =>
      dsimp only
      rw [hget]
      exact hg
    | some issue =>
      dsimp only
      rw [hget]
      have hwf := buildIssueIndex_get issues n issue hget
      rw [merge_heading_gn flag issue h (by rw [hg, hwf.1])]
      exact hg

/-- Shape of the merge output: the walked previous forest followed by
the appended new headings. -/
theorem merge_out_eq (flag : Bool) (issues : List GitHubIssue)
    (headings : List OrgHeading) :
    (merge flag issues headings).1 =
      headings.map (walkStep flag (buildIssueIndex issues)) ++
      (((issues.filter (fun i =>
          ¬ (mergeGo flag (buildIssueIndex issues) headings).processed.contains
            ((i.number : Int)))).insertionSort
          (fun a b => a.number ≤ b.number)).map (fun i => issue_to_heading flag i 1)) := by
  unfold merge
  dsimp only
  rw [mergeGo_merged]

/-! Claim C1: the no-deletion guarantee of the merge engine. -/

/-- Claim C1 (confirmed).  For every issue list and previous forest,
every node of the previous forest is represented in the merge output:
the output has at least as many top-level nodes as the previous forest,
and for every previous node some output node carries the same match-key
value (for keyless nodes, the node itself is carried over). -/
theorem claim_C1_no_deletion (flag : Bool) (issues : List GitHubIssue)
    (headings : List OrgHeading) :
    headings.length ≤ (merge flag issues headings).1.length ∧
    ∀ h ∈ headings, ∃ h2 ∈ (merge flag issues headings).1,
      h2.github_number = h.github_number := by
  rw [merge_out_eq]
  constructor
  · rw [List.length_append, List.length_map]
    omega
  · intro h hmem
    refine ⟨walkStep flag (buildIssueIndex issues) h, ?_, walkStep_gn flag issues h⟩
    exact List.mem_append_left _ (List.mem_map_of_mem _ hmem)

/-! Claim C6: user-owned nodes are untouched. -/

/-- Claim C6 (confirmed).  A heading with no match key (no
GITHUB_NUMBER property or an unparseable one) appears in the merge
output as the very same value, for every issue list: the merge engine
never alters or deletes a user-owned node. -/
theorem claim_C6_user_nodes_untouched (flag : Bool) (issues : List GitHubIssue)
    (headings : List OrgHeading) (h : OrgHeading)
    (hmem : h ∈ headings) (hkey : h.github_number = none) :
    h ∈ (merge flag issues headings).1 := by
  rw [merge_out_eq]
  have hstep : walkStep flag (buildIssueIndex issues) h = h := by
    unfold walkStep
    rw [hkey]
  exact List.mem_append_left _ (hstep ▸ List.mem_map_of_mem _ hmem)

/-! Counting lemmas for the exactly-one-node property. -/

theorem countP_filterMap_count {α β : Type} [DecidableEq β] (f : α → Option β)
    (l : List α) (b : β) :
    (l.filterMap f).count b = l.countP (fun a => f a == some b) := by
  induction l with
  | nil => rfl
  | cons a t ih =>
    rw [List.filterMap_cons, List.countP_cons]
    cases hf : f a with
    | none => simp [hf, ih]
    | some x =>
      rw [List.count_cons, ih]
      by_cases hx : x = b <;> simp [hf, hx]

theorem add_entry_preserved (r : MergeResult) (a : Nat) (b : String)
    (act : MergeAction) (d : Option String) :
    (r.add_entry a b act d).preserved = r.preserved + (if act = .preserved then 1 else 0) := by
  unfold MergeResult.add_entry
  cases act <;> simp

theorem foldl_add_entry_preserved (es : List MergeEntry) (r0 : MergeResult) :
    (es.foldl (fun r e => r.add_entry e.issue_number e.title e.action e.details) r0).preserved
      = r0.preserved + es.countP (fun e => e.action == .preserved) := by
  induction es generalizing r0 with
  | nil => simp
  | cons e t ih =>
    rw [List.foldl_cons, List.countP_cons, ih, add_entry_preserved]
    by_cases h : e.action = .preserved <;> simp [h] <;> omega

theorem foldl_add_added_preserved (l : List GitHubIssue) (r0 : MergeResult) :
    (l.foldl (fun r i => r.add_entry i.number i.title .added none) r0).preserved
      = r0.preserved := by
  induction l generalizing r0 with
  | nil => rfl
  | cons i t ih =>
    rw [List.foldl_cons, ih, add_entry_preserved]
    simp

/-- The preserved counter of the merge report counts exactly the
keyless and unmatched previous headings. -/
theorem merge_preserved_eq (flag : Bool) (issues : List GitHubIssue)
    (headings : List OrgHeading) :
    (merge flag issues headings).2.preserved =
      headings.countP (fun h =>
        match h.github_number with
        | none => true
        | some n => (alistGet (buildIssueIndex issues) n).isNone) := by
  unfold merge
  dsimp only
  rw [foldl_add_added_preserved, foldl_add_entry_preserved]
  have hzero : (mergeGo flag (buildIssueIndex issues) headings).entries.countP
      (fun e => e.action == .preserved) = 0 := by
    rw [List.countP_eq_zero]
    intro e he
    rcases mergeGo_entries_action flag (buildIssueIndex issues) headings e he with h | h <;>
      simp [h]
  rw [hzero, mergeGo_preservedCnt]
  rfl

/-! Claim C5: behaviour on duplicate match keys. -/

/-- Claim C5, amended (the original claim is refuted by the
counterexample below).  On duplicate match keys merge does not fail:
it reconciles every occurrence, first and later alike, against the
matching issue — the walk output is the pointwise reconciliation of the
whole previous forest — and only keyless or index-missing headings are
counted preserved. -/
theorem claim_C5_duplicates_all_reconciled (flag : Bool) (issues : List GitHubIssue)
    (headings : List OrgHeading) :
    (∃ tail, (merge flag issues headings).1 =
      headings.map (walkStep flag (buildIssueIndex issues)) ++ tail) ∧
    (merge flag issues headings).2.preserved =
      headings.countP (fun h =>
        match h.github_number with
        | none => true
        | some n => (alistGet (buildIssueIndex issues) n).isNone) := by
  exact ⟨⟨_, merge_out_eq flag issues headings⟩, merge_preserved_eq flag issues headings⟩

/-- Duplicate-key fixture: the shared issue. -/
def c5issue : GitHubIssue :=
  { number := 7, title := "New title", body := none, state := .openState,
    created_at := ⟨2024, 1, 1, 0, 0, 0⟩, updated_at := ⟨2024, 1, 2, 0, 0, 0⟩,
    author := ⟨"a"⟩, url := "u" }

/-- Duplicate-key fixture: first occurrence, already up to date. -/
def c5first : OrgHeading :=
  ⟨1, "New title", some .TODO, [],
    [("GITHUB_NUMBER", "7"), ("GITHUB_STATE", "open"),
     ("GITHUB_UPDATED", "2025-01-01T00:00:00")], "", [], none, none⟩

/-- Duplicate-key fixture: second occurrence in document order. -/
def c5second : OrgHeading :=
  ⟨1, "Old B", some .TODO, [], [("GITHUB_NUMBER", "7")], "", [], none, none⟩

/-- Claim C5, counterexample.  With two headings carrying match key 7
and issue 7 present, the engine does not treat the later occurrence as
unmatched-therefore-preserved: the second occurrence is reconciled too
(its title is rewritten to the issue title) and nothing is counted
preserved. -/
theorem claim_C5_counterexample :
    c5first.github_number = some 7 ∧ c5second.github_number = some 7 ∧
    ((merge true [c5issue] [c5first, c5second]).1.get? 1).map (fun h => h.title)
      = some "New title" ∧
    (merge true [c5issue] [c5first, c5second]).1.get? 1 ≠ some c5second ∧
    (merge true [c5issue] [c5first, c5second]).2.preserved = 0 := by
  refine ⟨by decide, by decide, by decide, by decide, by decide⟩

/-! Claim C4: exactly one output node per issue. -/

/-- Claim C4, amended (the original claim is refuted by the
counterexample below).  When the issue identifiers are unique and the
match-key values of the previous forest are pairwise distinct, every
issue is represented by exactly one node of the merge output.  With
duplicate match keys the engine reconciles each duplicate, so an issue
can be represented more than once. -/
theorem claim_C4_exactly_one (flag : Bool) (issues : List GitHubIssue)
    (headings : List OrgHeading)
    (hnum : (issues.map (fun i => i.number)).Nodup)
    (hkeys : (headings.filterMap OrgHeading.github_number).Nodup) :
    ∀ i ∈ issues,
      (merge flag issues headings).1.countP
        (fun h => h.github_number == some (i.number : Int)) = 1 := by
  intro i hi
  rw [merge_out_eq, List.countP_append]
  have hwalk : (headings.map (walkStep flag (buildIssueIndex issues))).countP
      (fun h => h.github_number == some (i.number : Int))
      = headings.countP (fun h => h.github_number == some (i.number : Int)) := by
    rw [List.countP_map]
    apply List.countP_congr
    intro h _
    simp only [Function.comp_apply, walkStep_gn]
  rw [hwalk]
  have hnewP : ∀ j : GitHubIssue,
      ((fun h => h.github_number == some ((i.number : Nat) : Int)) ∘
        (fun j => issue_to_heading flag j 1)) j = (j.number == i.number) := by
    intro j
    simp only [Function.comp_apply, issue_to_heading_gn]
    by_cases hj : j.number = i.number
    · simp [hj]
    · have hneq : ((j.number : Int)) ≠ ((i.number : Int)) := fun hc => hj (by exact_mod_cast hc)
      simp [hj, hneq]
  by_cases hA : ∃ h ∈ headings, h.github_number = some (i.number : Int)
  · obtain ⟨h, hmem, hgn⟩ := hA
    have hcount1 : headings.countP
        (fun h => h.github_number == some (i.number : Int)) = 1 := by
      have hc := countP_filterMap_count OrgHeading.github_number headings
        ((i.number : Int))
      have hle := List.nodup_iff_count_le_one.mp hkeys ((i.number : Int))
      have hge : 0 < (headings.filterMap OrgHeading.github_number).count
          ((i.number : Int)) :=
        List.count_pos_iff.mpr (List.mem_filterMap.mpr ⟨h, hmem, hgn⟩)
      omega
    have hproc : ((i.number : Int)) ∈
        (mergeGo flag (buildIssueIndex issues) headings).processed :=
      (mergeGo_processed _ _ _ _).mpr
        ⟨h, hmem, hgn, buildIssueIndex_isSome issues i hi⟩
    have hnew0 : (((issues.filter (fun j =>
        ¬ (mergeGo flag (buildIssueIndex issues) headings).processed.contains
          ((j.number : Int)))).insertionSort
        (fun a b => a.number ≤ b.number)).map (fun j => issue_to_heading flag j 1)).countP
        (fun h => h.github_number == some (i.number : Int)) = 0 := by
      rw [List.countP_map]
      rw [List.countP_eq_zero]
      intro j hj
      rw [hnewP j]
      have hjf : j ∈ issues.filter (fun j =>
          ¬ (mergeGo flag (buildIssueIndex issues) headings).processed.contains
            ((j.number : Int))) :=
        (List.perm_insertionSort _ _).mem_iff.mp hj
      obtain ⟨_, hjcond⟩ := List.mem_filter.mp hjf
      simp only [decide_not, Bool.not_eq_true', decide_eq_false_iff_not] at hjcond
      intro hpred
      have hje : j.number = i.number := by simpa using hpred
      apply hjcond
      rw [hje]
      exact List.elem_iff.mpr hproc
    rw [hcount1, hnew0]
  · have hcW0 : headings.countP
        (fun h => h.github_number == some (i.number : Int)) = 0 := by
      rw [List.countP_eq_zero]
      intro h hmem hpred
      exact hA ⟨h, hmem, by simpa using hpred⟩
    have hnotproc : ((i.number : Int)) ∉
        (mergeGo flag (buildIssueIndex issues) headings).processed := by
      intro hc
      obtain ⟨h, hmem, hgn, _⟩ := (mergeGo_processed _ _ _ _).mp hc
      exact hA ⟨h, hmem, hgn⟩
    have himem : i ∈ issues.filter (fun j =>
        ¬ (mergeGo flag (buildIssueIndex issues) headings).processed.contains
          ((j.number : Int))) := by
      rw [List.mem_filter]
      refine ⟨hi, ?_⟩
      simp only [decide_not, Bool.not_eq_true', decide_eq_false_iff_not]
      intro hc
      exact hnotproc (List.elem_iff.mp hc)
    have hnew1 : (((issues.filter (fun j =>
        ¬ (mergeGo flag (buildIssueIndex issues) headings).processed.contains
          ((j.number : Int)))).insertionSort
        (fun a b => a.number ≤ b.number)).map (fun j => issue_to_heading flag j 1)).countP
        (fun h => h.github_number == some (i.number : Int)) = 1 := by
      rw [List.countP_map]
      rw [List.countP_congr (fun j _ => by rw [hnewP j])]
      rw [(List.perm_insertionSort _ _).countP_eq]
      have hle : (issues.filter (fun j =>
          ¬ (mergeGo flag (buildIssueIndex issues) headings).processed.contains
            ((j.number : Int)))).countP (fun j => j.number == i.number)
          ≤ issues.countP (fun j => j.number == i.number) :=
        (List.filter_sublist _).countP_le _
      have hiss : issues.countP (fun j => j.number == i.number) ≤ 1 := by
        have hc : (issues.map (fun i => i.number)).count i.number
            = issues.countP (fun j => j.number == i.number) := by
          rw [List.count_eq_countP, List.countP_map]
          rfl
        have := List.nodup_iff_count_le_one.mp hnum i.number
        omega
      have hpos : 0 < (issues.filter (fun j =>
          ¬ (mergeGo flag (buildIssueIndex issues) headings).processed.contains
            ((j.number : Int)))).countP (fun j => j.number == i.number) :=
        List.countP_pos_iff.mpr ⟨i, himem, by simp⟩
      omega
    rw [hcW0, hnew1]

/-- Duplicate-key fixture for the C4 counterexample: the issue. -/
def c4issue : GitHubIssue :=
  { number := 7, title := "Seven", body := none, state := .openState,
    created_at := ⟨2024, 1, 1, 0, 0, 0⟩, updated_at := ⟨2024, 1, 2, 0, 0, 0⟩,
    author := ⟨"a"⟩, url := "u" }

/-- Duplicate-key fixture: first of two headings with match key 7. -/
def c4first : OrgHeading :=
  ⟨1, "Seven", some .TODO, [],
    [("GITHUB_NUMBER", "7"), ("GITHUB_STATE", "open"),
     ("GITHUB_UPDATED", "2025-01-01T00:00:00")], "", [], none, none⟩

/-- Duplicate-key fixture: second heading with match key 7. -/
def c4second : OrgHeading :=
  ⟨1, "Seven again", some .TODO, [],
    [("GITHUB_NUMBER", "7"), ("GITHUB_STATE", "open"),
     ("GITHUB_UPDATED", "2025-01-01T00:00:00")], "", [], none, none⟩

/-- Claim C4, counterexample.  The issue identifiers are unique, yet
with two previous headings carrying match key 7 the single issue 7 is
represented by two nodes of the output, not exactly one. -/
theorem claim_C4_counterexample :
    ([c4issue].map (fun i => i.number)).Nodup ∧
    (merge true [c4issue] [c4first, c4second]).1.countP
      (fun h => h.github_number == some (7 : Int)) = 2 := by
  refine ⟨by decide, by decide⟩

/-- Witness for claim C1 at a concrete input. -/
theorem claim_C1_no_deletion_witness :
    (1 : Nat) ≤ (merge true [c4issue] [c4first]).1.length ∧
    ∃ h2 ∈ (merge true [c4issue] [c4first]).1,
      h2.github_number = c4first.github_number := by
  refine ⟨(claim_C1_no_deletion true [c4issue] [c4first]).1, ?_⟩
  exact (claim_C1_no_deletion true [c4issue] [c4first]).2 c4first (List.mem_singleton.mpr rfl)

/-- Witness for claim C4 at a concrete input with unique keys. -/
theorem claim_C4_exactly_one_witness :
    (merge true [c4issue] [c4first]).1.countP
      (fun h => h.github_number == some ((c4issue.number : Nat) : Int)) = 1 :=
  claim_C4_exactly_one true [c4issue] [c4first] (by decide) (by decide)
    c4issue (List.mem_singleton.mpr rfl)

/-- Keyless user heading used by the C6 witness. -/
def c6head : OrgHeading :=
  ⟨1, "My Task", some .TODO, [], [], "User created task.", [], none, none⟩

/-- Witness for claim C6 at a concrete input. -/
theorem claim_C6_user_nodes_untouched_witness :
    c6head ∈ (merge true [c4issue] [c6head]).1 :=
  claim_C6_user_nodes_untouched true [c4issue] [c6head] c6head
    (List.mem_singleton.mpr rfl) rfl

/-! Claim C7: the sync-boundary marker is never appended. -/

/-- Fixture for claim C7: a plain issue without body. -/
def c7issue : GitHubIssue :=
  { number := 1, title := "T", body := none, state := .openState,
    created_at := ⟨2024, 1, 1, 0, 0, 0⟩, updated_at := ⟨2024, 1, 2, 0, 0, 0⟩,
    author := ⟨"a"⟩, url := "u" }

/-- Fixture for claim C7: a previous node that still carries the
marker and user-appended text. -/
def c7prev : OrgHeading :=
  ⟨1, "T", some .TODO, ["LINK"],
    [("GITHUB_NUMBER", "1"), ("GITHUB_STATE", "open"),
     ("GITHUB_UPDATED", "2024-01-01T00:00:00")],
    "# --- End of GitHub synced content ---\n\nUser notes.", [], none, none⟩

/-- Claim C7 (code bug).  The merge engine never appends the
sync-boundary sentinel: a brand-new node synthesized for an unmatched
issue has no marker in its content, and even a reconciled node whose
previous content contained the marker loses it — merge content carries
the user text over but drops the sentinel, so the next merge pass has
no split point. -/
theorem claim_C7_marker_never_emitted :
    (merge true [c7issue] []).1 = [issue_to_heading true c7issue 1] ∧
    containsSub SYNC_MARKER (issue_to_heading true c7issue 1).content = false ∧
    containsSub SYNC_MARKER c7prev.content = true ∧
    merge_content c7issue c7prev = "\nUser notes." ∧
    containsSub SYNC_MARKER (merge_content c7issue c7prev) = false := by
  refine ⟨by decide, by decide, by decide, by decide, by decide⟩

/-! Claim C3: idempotence of a second merge after render and re-parse. -/

/-- Fixture for claim C3: the unchanged issue. -/
def c3issue : GitHubIssue :=
  { number := 1, title := "T", body := none, state := .openState,
    created_at := ⟨2024, 1, 1, 0, 0, 0⟩, updated_at := ⟨2024, 1, 2, 0, 0, 0⟩,
    author := ⟨"a"⟩, url := "u" }

/-- Fixture for claim C3: the previous document's only node, carrying
user text behind the sync marker. -/
def c3prev : OrgHeading :=
  ⟨1, "T", some .TODO, ["LINK"],
    [("GITHUB_NUMBER", "1"), ("GITHUB_STATE", "open"),
     ("GITHUB_UPDATED", "2024-01-01T00:00:00")],
    "# --- End of GitHub synced content ---\n\nUser notes.", [], none, none⟩

/-- Claim C3 (code bug).  Rendering the output of one merge, parsing
it back and merging the same single-issue list again does not report
zero updated entries: the second merge classifies the node updated
(and silently drops the user text, because the first merge stored the
timestamp in Org bracket format, which the update check cannot read
back, and never re-emitted the sync marker).  The claim predicts
updated = 0; the code yields updated = 1. -/
theorem claim_C3_second_merge_updates_again :
    (merge true [c3issue]
      (parse_string (renderForest (merge true [c3issue] [c3prev]).1))).2.updated = 1 ∧
    (merge true [c3issue]
      (parse_string (renderForest (merge true [c3issue] [c3prev]).1))).2.added = 0 := by
  refine ⟨by decide, by decide⟩

/-! Claim C8: preservation of user text behind the sync marker. -/

theorem strEq_of_data (a b : String) (h : a.data = b.data) : a = b := by
  cases a
  cases b
  exact congrArg String.mk h

theorem dropWhile_head_false {α : Type} (p : α → Bool) (l : List α) (x : α) (xs : List α)
    (h : l.dropWhile p = x :: xs) : p x = false := by
  induction l with
  | nil => simp at h
  | cons a t ih =>
    rw [List.dropWhile_cons] at h
    split at h
    · exact ih h
    · rename_i hpa
      injection h with h1 _
      rw [← h1]
      simpa using hpa

/-- Appending right-stripped nonempty text to anything is stable under
a further right strip. -/
theorem rstripL_append_strip (x : List Char) (T : String) (hT : pyStrip T ≠ "") :
    rstripL (x ++ (pyStrip T).data) = x ++ (pyStrip T).data := by
  have hu : (pyStrip T).data = stripL T.data := rfl
  have hne : stripL T.data ≠ [] := by
    intro h
    apply hT
    unfold pyStrip
    rw [h]
  have hrev : (stripL T.data).reverse = (lstripL T.data).reverse.dropWhile pyIsSpace := by
    unfold stripL rstripL
    rw [List.reverse_reverse]
  cases hcase : (stripL T.data).reverse with
  | nil =>
    have hcontra : stripL T.data = [] := by simpa using congrArg List.reverse hcase
    exact absurd hcontra hne
  | cons c cs =>
    have hcws : pyIsSpace c = false := by
      apply dropWhile_head_false pyIsSpace ((lstripL T.data).reverse) c cs
      rw [← hrev, hcase]
    unfold rstripL
    rw [hu, List.reverse_append, hcase, List.cons_append, List.dropWhile_cons,
      if_neg (by simp [hcws])]
    rw [← List.cons_append, ← hcase, ← List.reverse_append, List.reverse_reverse]

/-- Extraction behind an explicit first-marker split. -/
theorem extract_user_content_eq (content pre T : String)
    (hsplit : pySplitOnce SYNC_MARKER content = some (pre, T)) :
    extract_user_content content = pyStrip T := by
  unfold extract_user_content
  rw [hsplit]

/-- Claim C8, amended (the original claim is refuted by the
counterexample below).  When the previous node's content splits at the
sync marker into a part before and a trailer T with nonempty strip, and
the issue carries a nonempty body, the merged content is the escaped
body, one blank separator line, and T stripped of its leading and
trailing whitespace — T survives only up to that stripping, not byte
for byte. -/
theorem claim_C8_trailing_content_stripped (issue : GitHubIssue) (existing : OrgHeading)
    (pre T b : String)
    (hsplit : pySplitOnce SYNC_MARKER existing.content = some (pre, T))
    (hT : pyStrip T ≠ "") (hb : issue.body = some b) (hbne : b ≠ "") :
    merge_content issue existing =
      escape_org_content (pyStrip b) ++ "\n\n" ++ pyStrip T := by
  unfold merge_content
  rw [hb]
  dsimp only
  rw [if_pos hbne, extract_user_content_eq existing.content pre T hsplit, if_pos hT]
  have hjoin : joinWith "\n" ([escape_org_content (pyStrip b)] ++ ["", pyStrip T])
      = (escape_org_content (pyStrip b) ++ "\n\n") ++ pyStrip T := by
    apply strEq_of_data
    show (escape_org_content (pyStrip b) ++ "\n" ++ ("" ++ "\n" ++ pyStrip T)).data = _
    have h1 : ("\n" : String).data = ['\n'] := rfl
    have h2 : ("" : String).data = [] := rfl
    have h3 : ("\n\n" : String).data = ['\n', '\n'] := rfl
    simp [String.data_append, h1, h2, h3]
  rw [hjoin]
  apply strEq_of_data
  unfold pyRstrip
  have hdata : ((escape_org_content (pyStrip b) ++ "\n\n") ++ pyStrip T).data
      = (escape_org_content (pyStrip b) ++ "\n\n").data ++ (pyStrip T).data := by
    simp [String.data_append]
  rw [hdata, rstripL_append_strip _ T hT]

/-- Fixture for claim C8: an issue whose only change is its title. -/
def c8issue : GitHubIssue :=
  { number := 1, title := "New", body := some "Body.", state := .openState,
    created_at := ⟨2024, 1, 1, 0, 0, 0⟩, updated_at := ⟨2024, 1, 2, 0, 0, 0⟩,
    author := ⟨"a"⟩, url := "u" }

/-- Fixture for claim C8: the previous node, whose trailer behind the
marker carries leading and trailing whitespace. -/
def c8prev : OrgHeading :=
  ⟨1, "Old", some .TODO, ["LINK"],
    [("GITHUB_NUMBER", "1"), ("GITHUB_STATE", "open"),
     ("GITHUB_UPDATED", "2024-01-01T00:00:00")],
    "Body.\n\n# --- End of GitHub synced content ---\n\n  keep  ", [], none, none⟩

/-- Claim C8, counterexample.  The trailer after the marker is the
text holding two leading blank characters and trailing blanks; the
merged node's content does not contain it byte for byte — the code
strips it. -/
theorem claim_C8_counterexample :
    pySplitOnce SYNC_MARKER c8prev.content = some ("Body.\n\n", "\n\n  keep  ") ∧
    (merge true [c8issue] [c8prev]).2.updated = 1 ∧
    ((merge true [c8issue] [c8prev]).1.head!).content = "Body.\n\nkeep" ∧
    containsSub "\n\n  keep  " ((merge true [c8issue] [c8prev]).1.head!).content = false := by
  refine ⟨by decide, by decide, by decide, by decide⟩

/-- Witness for the amended claim C8 at the concrete fixture. -/
theorem claim_C8_trailing_content_stripped_witness :
    merge_content c8issue c8prev =
      escape_org_content (pyStrip "Body.") ++ "\n\n" ++ pyStrip "\n\n  keep  " :=
  claim_C8_trailing_content_stripped c8issue c8prev "Body.\n\n" "\n\n  keep  " "Body."
    (by decide) (by decide) (by decide) (by decide)

/-! Claim C10: ordering and omission in the properties drawer. -/

/-- Pair order by upper-cased key.  Modelled from the spec: the claim
says keys are emitted in lexicographically sorted order of the
upper-cased key; this order realises those words for comparison with
the code's order, which sorts by the original key. -/
def propPairLeUpper (a b : String × Option String) : Prop :=
  (strLtb (pyUpper a.1).data (pyUpper b.1).data ||
    (pyUpper a.1 == pyUpper b.1 && propValLeB a.2 b.2)) = true

instance : DecidableRel propPairLeUpper := fun a b => by
  unfold propPairLeUpper
  infer_instance

/-- Modelled from the spec: the drawer rendering of the claim's words,
identical to format_properties except that entries are ordered by the
upper-cased key. -/
def format_properties_spec_order (properties : List (String × Option String))
    (indent : String := "") (target_column : Nat := 11) : String :=
  if properties = [] then ""
  else
    let valid := properties.filter (fun p =>
      match p.2 with
      | none => false
      | some v => pyStrip v ≠ "")
    if valid = [] then ""
    else
      let sortedProps := valid.insertionSort propPairLeUpper
      let propLines := sortedProps.map (fun p =>
        let value_str := p.2.getD ""
        let key_upper := pyUpper p.1
        let prefLen := key_upper.length + 2
        let padding :=
          if prefLen ≥ target_column then " "
          else String.mk (List.replicate (target_column - prefLen) ' ')
        indent ++ ":" ++ key_upper ++ ":" ++ padding ++ value_str)
      joinWith "\n" ((indent ++ ":PROPERTIES:") :: propLines ++ [indent ++ ":END:"])

/-- Claim C10, counterexample.  With the insertion order a, B the code
emits B before A — sorted by the original mixed-case keys, where the
upper-case letter sorts first — while the upper-cased-key order the
claim describes would emit A before B. -/
theorem claim_C10_counterexample :
    format_properties [("a", some "x"), ("B", some "y")] "" 11
      = ":PROPERTIES:\n:B:        y\n:A:        x\n:END:" ∧
    format_properties_spec_order [("a", some "x"), ("B", some "y")] "" 11
      = ":PROPERTIES:\n:A:        x\n:B:        y\n:END:" ∧
    format_properties [("a", some "x"), ("B", some "y")] "" 11
      ≠ format_properties_spec_order [("a", some "x"), ("B", some "y")] "" 11 := by
  refine ⟨by decide, by decide, by decide⟩

/-- Claim C10, amended (the original claim is refuted by the
counterexample above).  The drawer is emitted in sorted order of the
original (not upper-cased) key: the rendering is invariant under any
permutation of the insertion order, and entries whose value is missing
or whitespace-only are silently omitted — rendering a property list and
rendering its restriction to valid entries coincide. -/
theorem claim_C10_sorted_by_original_key (ps qs : List (String × Option String))
    (hperm : ps.Perm qs) (ind : String) (tc : Nat) :
    format_properties ps ind tc = format_properties qs ind tc ∧
    ∀ l : List (String × Option String),
      format_properties l ind tc =
        format_properties (l.filter (fun p =>
          match p.2 with
          | none => false
          | some v => pyStrip v ≠ "")) ind tc := by
  constructor
  · have hsort : ((ps.filter (fun p =>
        match p.2 with
        | none => false
        | some v => pyStrip v ≠ "")).insertionSort propPairLe)
        = ((qs.filter (fun p =>
        match p.2 with
        | none => false
        | some v => pyStrip v ≠ "")).insertionSort propPairLe) := by
      exact List.eq_of_perm_of_sorted
        ((List.perm_insertionSort propPairLe _).trans
          ((hperm.filter _).trans (List.perm_insertionSort propPairLe _).symm))
        (List.sorted_insertionSort propPairLe _)
        (List.sorted_insertionSort propPairLe _)
    by_cases hps : ps = []
    · subst hps
      have hqs : qs = [] := hperm.symm.eq_nil
      subst hqs
      rfl
    · have hqs : qs ≠ [] := by
        intro hq
        exact hps (hq ▸ hperm).eq_nil
      unfold format_properties
      rw [if_neg hps, if_neg hqs]
      dsimp only
      by_cases hv : ps.filter (fun p =>
          match p.2 with
          | none => false
          | some v => pyStrip v ≠ "") = []
      · have hv2 : qs.filter (fun p =>
            match p.2 with
            | none => false
            | some v => pyStrip v ≠ "") = [] :=
          ((hperm.filter _).symm.trans (by rw [hv])).eq_nil
        rw [if_pos hv, if_pos hv2]
      · have hv2 : qs.filter (fun p =>
            match p.2 with
            | none => false
            | some v => pyStrip v ≠ "") ≠ [] := by
          intro hq
          exact hv ((hperm.filter _).trans (by rw [hq])).eq_nil
        rw [if_neg hv, if_neg hv2, hsort]
  · intro l
    by_cases hl : l = []
    · subst hl
      rfl
    · by_cases hf : l.filter (fun p =>
          match p.2 with
          | none => false
          | some v => pyStrip v ≠ "") = []
      · unfold format_properties
        rw [if_neg hl, if_pos hf]
        dsimp only
        rw [if_pos hf]
      · unfold format_properties
        rw [if_neg hl, if_neg hf]
        dsimp only
        rw [if_neg hf]
        have hff : (l.filter (fun p =>
            match p.2 with
            | none => false
            | some v => pyStrip v ≠ "")).filter (fun p =>
            match p.2 with
            | none => false
            | some v => pyStrip v ≠ "")
            = l.filter (fun p =>
            match p.2 with
            | none => false
            | some v => pyStrip v ≠ "") := by
          rw [List.filter_filter]
          apply List.filter_congr
          intro p _
          cases p.2 <;> simp
        rw [hff, if_neg hf]

/-- Witness for the amended claim C10 at a concrete permutation. -/
theorem claim_C10_sorted_by_original_key_witness :
    format_properties [("a", some "x"), ("B", some "y")] "" 11
      = format_properties [("B", some "y"), ("a", some "x")] "" 11 ∧
    format_properties [("a", some "x"), ("B", none)] "" 11
      = format_properties ([("a", some "x"), ("B", none)].filter (fun p =>
          match p.2 with
          | none => false
          | some v => pyStrip v ≠ "")) "" 11 := by
  refine ⟨?_, ?_⟩
  · exact (claim_C10_sorted_by_original_key [("a", some "x"), ("B", some "y")]
      [("B", some "y"), ("a", some "x")] (by decide) "" 11).1
  · exact (claim_C10_sorted_by_original_key [] [] (List.Perm.refl []) "" 11).2
      [("a", some "x"), ("B", none)]

/-! Claim C9: parse_string and exceptions. -/

/-- When every heading line in sight carries at most ten stars, the
raising flat scan agrees with the total one and returns ok. -/
theorem parseFlatEF_ok (fuel : Nat) : ∀ (idx : Nat) (ls : List String),
    (∀ l ∈ ls, ((headingMatch l).map HeadingMatchResult.level).getD 0 ≤ 10) →
    parseFlatEF fuel idx ls = .ok (parseFlatF fuel idx ls) := by
  induction fuel with
  | zero =>
    intro idx ls h
    cases ls <;> rfl
  | succ fuel ih =>
    intro idx ls h
    cases ls with
    | nil => rfl
    | cons line rest =>
      cases hm : headingMatch line with
      | none =>
        simp only [parseFlatEF, parseFlatF, hm]
        exact ih (idx + 1) rest (fun l hl => h l (List.mem_cons_of_mem _ hl))
      | some m =>
        have hlev : m.level ≤ 10 := by
          have := h line (List.mem_cons_self _ _)
          rw [hm] at this
          exact this
        simp only [parseFlatEF, parseFlatF, hm, if_pos hlev]
        rw [ih _ _ (fun l hl => h l (List.mem_cons_of_mem _ (List.mem_of_mem_drop hl)))]

/-- Claim C9, amended (the original claim is refuted by the
counterexample below: a heading with more than ten stars makes the
pydantic level bound of models.py raise a ValidationError inside
parse_string).  Restricted to inputs whose heading lines all have at
most ten stars, parsing indeed never raises: the raising embedding
returns ok with exactly the forest of the total parser, preamble lines
discarded and unparseable fragments degraded to content. -/
theorem claim_C9_parse_never_raises_bounded (s : String)
    (h : ∀ l ∈ splitLines s, ((headingMatch l).map HeadingMatchResult.level).getD 0 ≤ 10) :
    parse_stringE s = .ok (parse_string s) := by
  unfold parse_stringE parse_string parseFlatE parseFlat
  rw [parseFlatEF_ok _ _ _ h]
  rfl

/-- Witness for the amended claim C9: a document with preamble, a
well-formed heading and a malformed drawer fragment parses without
error. -/
theorem claim_C9_parse_never_raises_bounded_witness :
    parse_stringE "preamble\n* TODO A :tag:\n:PROPERTIES:\n:oops\nbody"
      = .ok (parse_string "preamble\n* TODO A :tag:\n:PROPERTIES:\n:oops\nbody") :=
  claim_C9_parse_never_raises_bounded "preamble\n* TODO A :tag:\n:PROPERTIES:\n:oops\nbody"
    (by decide)

/-- Claim C9, counterexample: a single heading line with eleven stars
is rejected by the level bound (Field ge=1 le=10 in models.py), so
parse_string raises a pydantic ValidationError instead of degrading
gracefully. -/
theorem claim_C9_counterexample :
    parse_stringE "*********** x" = .error "ValidationError: level" := rfl

/-! Claim C2: round-trip of rendered text through parse and render. -/

theorem chSplit_ne_nil (c : Char) (l : List Char) : chSplit c l ≠ [] := by
  cases l with
  | nil => simp [chSplit]
  | cons x xs =>
    rw [chSplit]
    cases h : chSplit c xs with
    | nil => simp
    | cons g gs =>
      dsimp only
      by_cases hx : x = c <;> simp [hx]

theorem chSplit_no_sep (c : Char) (l : List Char) (h : c ∉ l) : chSplit c l = [l] := by
  induction l with
  | nil => rfl
  | cons x xs ih =>
    have hx : ¬ x = c := fun he => h (he ▸ List.mem_cons_self x xs)
    simp only [chSplit, ih (fun hc => h (List.mem_cons_of_mem x hc))]
    rw [if_neg hx]

theorem chSplit_append_sep (c : Char) (a b : List Char) (ha : c ∉ a) :
    chSplit c (a ++ c :: b) = a :: chSplit c b := by
  induction a with
  | nil =>
    rw [List.nil_append, chSplit]
    cases h : chSplit c b with
    | nil => exact absurd h (chSplit_ne_nil c b)
    | cons g gs =>
      dsimp only
      rw [if_pos rfl]
  | cons x xs ih =>
    have hx : ¬ x = c := fun he => ha (he ▸ List.mem_cons_self x xs)
    have hih := ih (fun hc => ha (List.mem_cons_of_mem x hc))
    rw [List.cons_append, chSplit, hih]
    dsimp only
    rw [if_neg hx]

theorem chSplit_join (L : List String) (hne : L ≠ [])
    (hnl : ∀ l ∈ L, '\n' ∉ l.data) :
    chSplit '\n' (joinWith "\n" L).data = L.map String.data := by
  induction L with
  | nil => exact absurd rfl hne
  | cons x xs ih =>
    cases xs with
    | nil =>
      show chSplit '\n' x.data = [x.data]
      exact chSplit_no_sep _ _ (hnl x (List.mem_cons_self x []))
    | cons y ys =>
      have hd : (joinWith "\n" (x :: y :: ys)).data
          = x.data ++ '\n' :: (joinWith "\n" (y :: ys)).data := by
        show (x ++ "\n" ++ joinWith "\n" (y :: ys)).data = _
        rw [String.data_append, String.data_append, List.append_assoc]
        rfl
      rw [hd, chSplit_append_sep _ _ _ (hnl x (List.mem_cons_self _ _)),
        ih (by simp) (fun l hl => hnl l (List.mem_cons_of_mem x hl))]
      rfl

theorem splitLines_joinWith (L : List String) (hne : L ≠ [])
    (hnl : ∀ l ∈ L, '\n' ∉ l.data) :
    splitLines (joinWith "\n" L) = L := by
  unfold splitLines
  rw [chSplit_join L hne hnl]
  have hid : ∀ M : List String, (M.map String.data).map (fun l => (⟨l⟩ : String)) = M := by
    intro M
    induction M with
    | nil => rfl
    | cons a as ih2 =>
      simp only [List.map_cons]
      rw [ih2]
  exact hid L

theorem joinWith_cons (sep x : String) (xs : List String) (h : xs ≠ []) :
    joinWith sep (x :: xs) = x ++ sep ++ joinWith sep xs := by
  cases xs with
  | nil => exact absurd rfl h
  | cons y ys => rfl

theorem joinWith_append (sep : String) (A B : List String) (hA : A ≠ []) (hB : B ≠ []) :
    joinWith sep (A ++ B) = joinWith sep A ++ sep ++ joinWith sep B := by
  induction A with
  | nil => exact absurd rfl hA
  | cons a as ih =>
    cases as with
    | nil =>
      rw [List.singleton_append, joinWith_cons sep a B hB]
      rfl
    | cons a2 as2 =>
      rw [List.cons_append, joinWith_cons sep a ((a2 :: as2) ++ B) (by simp),
        ih (by simp), joinWith_cons sep a (a2 :: as2) (by simp)]
      apply strEq_of_data
      simp [String.data_append]

theorem dropWhile_eq_drop_len {α : Type} (p : α → Bool) (l : List α) :
    l.dropWhile p = l.drop (l.takeWhile p).length := by
  induction l with
  | nil => rfl
  | cons x xs ih =>
    cases hpx : p x
    · simp [List.dropWhile_cons, List.takeWhile_cons, hpx]
    · simp [List.dropWhile_cons, List.takeWhile_cons, hpx, ih]

theorem drop_add_takeWhile {α : Type} (p : α → Bool) (l : List α) (k : Nat) :
    l.drop (k + ((l.drop k).takeWhile p).length) = (l.drop k).dropWhile p := by
  rw [← List.drop_drop, ← dropWhile_eq_drop_len]

/-- Number of lines consumed by the optional properties drawer directly
below a heading line, as in OrgParser. parse heading. -/
def drawerLines (rest : List String) : Nat :=
  match rest with
  | r1 :: others => if isDrawerStart r1 then (drawerGo others []).2 + 1 else 0
  | [] => 0

theorem parse_heading_core_consumed (m : HeadingMatchResult) (line : String)
    (rest : List String) (n : Nat) :
    (parse_heading_core m line rest n).2
      = drawerLines rest
        + ((rest.drop (drawerLines rest)).takeWhile (fun l => (headingMatch l).isNone)).length := by
  cases rest with
  | nil => rfl
  | cons r1 others =>
    cases h : isDrawerStart r1
    · simp [parse_heading_core, drawerLines, h]
    · simp [parse_heading_core, drawerLines, h]

theorem parse_heading_core_raw (m : HeadingMatchResult) (line : String)
    (rest : List String) (n : Nat) :
    (parse_heading_core m line rest n).1.raw_text
      = some (joinWith "\n" (line :: rest.take (parse_heading_core m line rest n).2)) := rfl

theorem parse_heading_core_children (m : HeadingMatchResult) (line : String)
    (rest : List String) (n : Nat) :
    (parse_heading_core m line rest n).1.children = [] := rfl

/-- After a heading segment is consumed, the next remaining line (when
one exists) is again a heading line. -/
theorem parseFlat_drop_next (m : HeadingMatchResult) (line : String) (rest : List String)
    (n : Nat) (l' : String) (r' : List String)
    (h : rest.drop (parse_heading_core m line rest n).2 = l' :: r') :
    (headingMatch l').isSome := by
  rw [parse_heading_core_consumed, drop_add_takeWhile] at h
  have hp : (headingMatch l').isNone = false :=
    dropWhile_head_false (fun l => (headingMatch l).isNone)
      (rest.drop (drawerLines rest)) l' r' h
  cases hml : headingMatch l' with
  | none =>
    rw [hml] at hp
    simp at hp
  | some m2 => rfl

theorem parseFlatF_nil (fuel idx : Nat) : parseFlatF fuel idx [] = [] := by
  cases fuel <;> rfl

/-- Every heading produced by the flat scan is childless and carries its
raw source text. -/
theorem parseFlatF_shape (fuel : Nat) : ∀ (idx : Nat) (L : List String) (h : OrgHeading),
    h ∈ parseFlatF fuel idx L → h.children = [] ∧ h.raw_text.isSome := by
  induction fuel with
  | zero =>
    intro idx L h hh
    simp [parseFlatF] at hh
  | succ fuel ih =>
    intro idx L h hh
    cases L with
    | nil => simp [parseFlatF] at hh
    | cons line rest =>
      cases hm : headingMatch line with
      | none =>
        simp only [parseFlatF, hm] at hh
        exact ih _ _ _ hh
      | some m =>
        simp only [parseFlatF, hm] at hh
        rcases List.mem_cons.mp hh with rfl | hh2
        · refine ⟨parse_heading_core_children m line rest (idx + 1), ?_⟩
          rw [parse_heading_core_raw]
          rfl
        · exact ih _ _ _ hh2

/-- The raw texts of the flat scan reassemble the input lines: joined
with newlines they give back the joined document, provided the first
line (when one exists) is a heading line. -/
theorem parseFlatF_raw_join (fuel : Nat) : ∀ (idx : Nat) (L : List String),
    L.length ≤ fuel →
    (∀ l ∈ L.take 1, (headingMatch l).isSome) →
    joinWith "\n" ((parseFlatF fuel idx L).map (fun h => h.raw_text.getD ""))
      = joinWith "\n" L := by
  induction fuel with
  | zero =>
    intro idx L hlen hh
    have hL : L = [] := List.length_eq_zero.mp (Nat.le_zero.mp hlen)
    subst hL
    rfl
  | succ fuel ih =>
    intro idx L hlen hh
    cases L with
    | nil => rfl
    | cons line rest =>
      have hsome : (headingMatch line).isSome := hh line (by simp)
      obtain ⟨m, hm⟩ := Option.isSome_iff_exists.mp hsome
      simp only [parseFlatF, hm]
      cases hdrop : rest.drop (parse_heading_core m line rest (idx + 1)).2 with
      | nil =>
        have h0 : rest.length - (parse_heading_core m line rest (idx + 1)).2 = 0 := by
          rw [← List.length_drop, hdrop]
          rfl
        have hrest : rest.length ≤ (parse_heading_core m line rest (idx + 1)).2 :=
          Nat.le_of_sub_eq_zero h0
        rw [parseFlatF_nil]
        simp only [List.map_cons, List.map_nil]
        show (parse_heading_core m line rest (idx + 1)).1.raw_text.getD ""
          = joinWith "\n" (line :: rest)
        rw [parse_heading_core_raw, Option.getD_some, List.take_of_length_le hrest]
      | cons l2 r2 =>
        have hnext : (headingMatch l2).isSome :=
          parseFlat_drop_next m line rest (idx + 1) l2 r2 hdrop
        have hlen2 : (l2 :: r2).length ≤ fuel := by
          have h1 : (rest.drop (parse_heading_core m line rest (idx + 1)).2).length
              ≤ rest.length := by
            rw [List.length_drop]
            omega
          rw [hdrop] at h1
          have h2 : rest.length + 1 ≤ fuel + 1 := hlen
          simp only [List.length_cons] at h1 ⊢
          omega
        cases fuel with
        | zero =>
          exfalso
          simp at hlen2
        | succ f2 =>
          obtain ⟨m2, hm2⟩ := Option.isSome_iff_exists.mp hnext
          have htail : parseFlatF (f2 + 1)
              (idx + 1 + (parse_heading_core m line rest (idx + 1)).2) (l2 :: r2) ≠ [] := by
            simp only [parseFlatF, hm2]
            exact List.cons_ne_nil _ _
          have hIH := ih (idx + 1 + (parse_heading_core m line rest (idx + 1)).2)
            (l2 :: r2) hlen2
            (fun l hl => by
              have hll : l = l2 := by simpa using hl
              rw [hll]
              exact hnext)
          simp only [List.map_cons]
          rw [joinWith_cons "\n" _ _ (fun hmap => htail (List.map_eq_nil_iff.mp hmap)),
            hIH, parse_heading_core_raw, Option.getD_some,
            ← joinWith_append "\n" (line :: rest.take (parse_heading_core m line rest (idx + 1)).2)
              (l2 :: r2) (List.cons_ne_nil _ _) (List.cons_ne_nil _ _),
            ← hdrop, List.cons_append, List.take_append_drop]

theorem closeNode_nil (h : OrgHeading) : closeNode (h, []) = h := by
  obtain ⟨lv, ti, st, tg, pr, co, ch, ln, rtx⟩ := h
  simp [closeNode]

/-- Fold invariant of build tree on a flat (level non-increasing)
heading run: each incoming heading pops the single stack entry into the
result, so the fold followed by the final flush is the identity. -/
theorem btFold_flat : ∀ (hs : List OrgHeading) (h : OrgHeading) (res : List OrgHeading),
    List.Chain' (fun a b => b.level ≤ a.level) (h :: hs) →
    btFlush ((hs.foldl (fun st x =>
        let pr := btPop x.level st.1 st.2
        ((x, []) :: pr.1, pr.2)) ([(h, [])], res))).1
      ((hs.foldl (fun st x =>
        let pr := btPop x.level st.1 st.2
        ((x, []) :: pr.1, pr.2)) ([(h, [])], res))).2
      = res ++ h :: hs := by
  intro hs
  induction hs with
  | nil =>
    intro h res _
    show btFlush [(h, [])] res = res ++ [h]
    show res ++ [closeNode (h, [])] = res ++ [h]
    rw [closeNode_nil]
  | cons h2 hs2 ih =>
    intro h res hchain
    have hle : h2.level ≤ h.level := (List.chain'_cons.mp hchain).1
    have hpop : btPop h2.level [(h, [])] res = ([], res ++ [h]) := by
      show btPopF h2.level 1 [(h, [])] res = ([], res ++ [h])
      simp only [btPopF]
      rw [if_pos hle, closeNode_nil]
    rw [List.foldl_cons]
    dsimp only
    rw [hpop]
    have := ih h2 (res ++ [h]) (List.chain'_cons.mp hchain).2
    rw [this, List.append_assoc]
    rfl

/-- Build tree is the identity on a flat heading list: when levels never
increase no nesting occurs and the flat order is returned unchanged. -/
theorem build_tree_flat (flat : List OrgHeading)
    (hchain : List.Chain' (fun a b => b.level ≤ a.level) flat) :
    build_tree flat = flat := by
  cases flat with
  | nil => rfl
  | cons h hs =>
    have hfold := btFold_flat hs h [] hchain
    rw [List.nil_append] at hfold
    exact hfold

/-- A childless heading with raw text renders verbatim. -/
theorem format_heading_raw (h : OrgHeading) (hc : h.children = []) (r : String)
    (hr : h.raw_text = some r) : format_heading h = r := by
  obtain ⟨lv, ti, st, tg, pr, co, ch, ln, rtx⟩ := h
  cases hc
  cases hr
  rfl

/-- A forest used for the claim C2 counterexample: one heading with
content and one child. -/
def c2forest : List OrgHeading :=
  [⟨1, "A", none, [], [], "x",
    [⟨2, "B", none, [], [], "", [], none, none⟩], none, none⟩]

/-- Claim C2, counterexample: rendering this forest, parsing the text
and rendering again does not restore the text.  The parent's raw text
absorbs the blank separator line before its child, and the renderer
emits a fresh blank line before each re-rendered child, so every
round trip of a heading with children inserts one more blank line. -/
theorem claim_C2_counterexample :
    renderForest c2forest = "* A\nx\n\n** B" ∧
    renderForest (parse_string (renderForest c2forest)) = "* A\nx\n\n\n** B" ∧
    renderForest (parse_string (renderForest c2forest)) ≠ renderForest c2forest := by
  refine ⟨rfl, rfl, by decide⟩

/-- Claim C2, amended (the original claim is refuted by the
counterexample above, where a rendered forest with children fails to
round-trip).  For a flat document — a nonempty newline-free line list
that opens with a heading line and whose parsed headings never increase
in level, so that the built tree has no nesting — parsing the joined
text and rendering the resulting forest restores the text byte for
byte: verbatim raw segments are replayed unchanged. -/
theorem claim_C2_round_trip_flat (L : List String)
    (hne : L ≠ [])
    (hnl : ∀ l ∈ L, '\n' ∉ l.data)
    (hh : ∀ l ∈ L.take 1, (headingMatch l).isSome)
    (hlev : List.Chain' (fun a b => b.level ≤ a.level) (parseFlat 0 L)) :
    renderForest (parse_string (joinWith "\n" L)) = joinWith "\n" L := by
  unfold parse_string
  rw [splitLines_joinWith L hne hnl, build_tree_flat _ hlev]
  unfold renderForest
  have hmap : (parseFlat 0 L).map format_heading
      = (parseFlat 0 L).map (fun h => h.raw_text.getD "") := by
    apply List.map_congr_left
    intro h hmem
    obtain ⟨hch, hraw⟩ := parseFlatF_shape L.length 0 L h hmem
    obtain ⟨r, hr⟩ := Option.isSome_iff_exists.mp hraw
    rw [format_heading_raw h hch r hr, hr]
    rfl
  rw [hmap]
  exact parseFlatF_raw_join L.length 0 L le_rfl hh

/-- Witness for the amended claim C2 on a concrete two-line document. -/
theorem claim_C2_round_trip_flat_witness :
    renderForest (parse_string (joinWith "\n" ["* A", "x"])) = joinWith "\n" ["* A", "x"] :=
  claim_C2_round_trip_flat ["* A", "x"] (by decide) (by decide) (by decide)
    (by rw [show parseFlat 0 ["* A", "x"]
          = [⟨1, "A", none, [], [], "x", [], some 1, some "* A\nx"⟩] from rfl]
        exact List.chain'_singleton _)

end GhOrgSync
